import Mathlib

/-!
Verification of the dddgo static conformance checker.

The development shallowly embeds the Go code of the repository: the AST shapes
the checker inspects, the `filepath.Walk` traversal, and the three analysis
phases (`FindTypeDeclarations`, `FindConstructors`,
`FindZeroValueInitializations`) together with the per-marker-kind wrappers
(`ValidateValueObjects`, `ValidateCommands`).  The `helpers` namespace embeds
`pkg/helpers/helpers.go` (the engine that the marker-kind packages call); the
`legacy` namespace embeds the older overlapping variant of the same functions
that resolves types by bare name.
-/

set_option maxHeartbeats 1000000

namespace DDDGo

/-! ### Models of the Go standard library functions used by the checker -/

/-- Models Go `strings.Trim(s, "\"")`: removes all leading and trailing quote
characters, as applied to `imp.Path.Value`. -/
def trimQuotes (s : String) : String :=
  ⟨((s.data.dropWhile (· = '"')).reverse.dropWhile (· = '"')).reverse⟩

/-- Models Go `strings.Split(s, "/")` at the character level. -/
def splitSlash : List Char → List (List Char)
  | [] => [[]]
  | c :: rest =>
    if c = '/' then [] :: splitSlash rest
    else
      match splitSlash rest with
      | [] => [[c]]
      | h :: t => (c :: h) :: t

/-- Models Go `parts[len(parts)-1]` after `parts := strings.Split(s, "/")`. -/
def lastSegment (s : String) : String := ⟨(splitSlash s.data).getLastD []⟩

/-- Helper for `filepathExt`: walks the reversed character list of a path,
accumulating the characters after the last dot of the final path element. -/
def extRevAux : List Char → List Char → Option (List Char)
  | [], _ => none
  | c :: rest, acc =>
    if c = '/' then none
    else if c = '.' then some ('.' :: acc)
    else extRevAux rest (c :: acc)

/-- Models Go `filepath.Ext`: the suffix of the final path element beginning at
its last dot, or the empty string when that element has no dot. -/
def filepathExt (p : String) : String :=
  match extRevAux p.data.reverse [] with
  | none => ""
  | some l => ⟨l⟩

/-- Character-level prefix test used to model `strings.HasPrefix` and
`strings.HasSuffix`. -/
def listIsPre : List Char → List Char → Bool
  | [], _ => true
  | _ :: _, [] => false
  | a :: as, b :: bs => a == b && listIsPre as bs

/-- Models Go `strings.HasPrefix s pre`. -/
def goStartsWith (s pre : String) : Bool := listIsPre pre.data s.data

/-- Models Go `strings.HasSuffix s suf`. -/
def goEndsWith (s suf : String) : Bool := listIsPre suf.data.reverse s.data.reverse

/-- Decimal digit character. -/
def digitChar : Nat → Char
  | 0 => '0'
  | 1 => '1'
  | 2 => '2'
  | 3 => '3'
  | 4 => '4'
  | 5 => '5'
  | 6 => '6'
  | 7 => '7'
  | 8 => '8'
  | 9 => '9'
  | _ => '?'

/-- Helper for `natRepr`: most-significant-first decimal digits, driven by
fuel so that the recursion is structural. -/
def natReprAux : Nat → Nat → List Char
  | 0, _ => []
  | fuel + 1, n =>
    if n < 10 then [digitChar n]
    else natReprAux fuel (n / 10) ++ [digitChar (n % 10)]

/-- Models `fmt.Sprintf("%d", n)` for the non-negative line numbers used by
the checker. -/
def natRepr (n : Nat) : String := ⟨natReprAux (n + 1) n⟩

/-- Models the external `ge.Pin` error wrapper from the suikat library. -/
def gePin (e : String) : String := "ge.Pin: " ++ e

/-! ### Set and map primitives

Go `map[string]bool` values used as sets, and the `map[string]*ConstructorInfo`
of the constructor phase, are modelled as lists: `insertSet` is `m[s] = true`,
`mapSet` is `m[k] = v` (overwriting an existing key). -/

/-- Models writing `m[s] = true` into a Go `map[string]bool` used as a set. -/
def insertSet (s : String) (l : List String) : List String :=
  if s ∈ l then l else l ++ [s]

/-- Models `helpers.ConstructorInfo`. -/
structure ConstructorInfo where
  File : String
  StartLine : Nat
  EndLine : Nat
deriving DecidableEq, Repr

/-- Models writing `m[k] = v` into a Go `map[string]*ConstructorInfo`:
overwrites the value when the key is present, inserts it otherwise. -/
def mapSet (m : List (String × ConstructorInfo)) (k : String) (v : ConstructorInfo) :
    List (String × ConstructorInfo) :=
  if m.any (fun kv => kv.1 == k) then
    m.map (fun kv => if kv.1 == k then (k, v) else kv)
  else m ++ [(k, v)]

/-- Self-contained `concatMap` over lists, used to flatten per-declaration node
visits into a file's visit sequence. -/
def concatMap (g : α → List β) : List α → List β
  | [] => []
  | a :: as => g a ++ concatMap g as

/-! ### The Go AST abstraction

Only the node shapes the checker's `ast.Inspect` callbacks distinguish are
modelled; everything else is an `other` form that still carries its children so
that nested nodes are visited. -/

/-- Import spec: the optional explicit alias (`imp.Name`) and the quoted import
path literal (`imp.Path.Value`). -/
structure GoImport where
  name : Option String
  pathValue : String
deriving DecidableEq, Repr

/-- Type expressions as inspected by the checker: a bare identifier, a selector
`X.Sel` whose `X` is an identifier (`x = none` models a non-identifier `X`), or
any other type expression. -/
inductive GoTypeExpr where
  | ident (name : String)
  | selector (x : Option String) (sel : String)
  | otherType
deriving DecidableEq, Repr

/-- One entry of a struct field list (`*ast.Field`): its declared names and
its type. -/
structure GoField where
  names : List String
  ftype : GoTypeExpr
deriving DecidableEq, Repr

/-- Struct type (`*ast.StructType`); `fields = none` models a nil field
list. -/
structure GoStructType where
  fields : Option (List GoField)
deriving DecidableEq, Repr

mutual
/-- Expressions, restricted to what the scanner distinguishes: composite
literals (type, element list, source line of `compLit.Pos()`) and all other
expressions, which still carry their sub-expressions so nested literals are
visited. -/
inductive GoExpr where
  | compositeLit (ty : GoTypeExpr) (elts : GoExprList) (line : Nat)
  | otherExpr (children : GoExprList)
deriving DecidableEq, Repr

/-- Lists of expressions (explicit to keep recursion structural). -/
inductive GoExprList where
  | nil
  | cons (head : GoExpr) (tail : GoExprList)
deriving DecidableEq, Repr
end

/-- Length of a `GoExprList`, modelling `len(compLit.Elts)`. -/
def GoExprList.length : GoExprList → Nat
  | .nil => 0
  | .cons _ es => es.length + 1

mutual
/-- Statements: assignments, returns, expression statements, and any other
statement form carrying its nested statements and direct sub-expressions. -/
inductive GoStmt where
  | assign (lhs rhs : GoExprList)
  | ret (results : GoExprList)
  | exprStmt (e : GoExpr)
  | seq (children : GoStmtList) (exprs : GoExprList)
deriving DecidableEq, Repr

/-- Lists of statements (explicit to keep recursion structural). -/
inductive GoStmtList where
  | nil
  | cons (head : GoStmt) (tail : GoStmtList)
deriving DecidableEq, Repr
end

/-- Top-level declarations of a file. -/
inductive GoDecl where
  | typeDecl (name : String) (st : Option GoStructType)
  | varDecl (inits : GoExprList)
  | funcDecl (name : String) (results : Option (List GoTypeExpr)) (body : GoStmtList)
      (startLine endLine : Nat)
  | otherDecl
deriving DecidableEq, Repr

/-- A parsed Go file: package clause name (`file.Name.Name`), imports, and
declarations. -/
structure GoFile where
  pkgName : String
  imports : List GoImport
  decls : List GoDecl
deriving DecidableEq, Repr

/-- The node shapes an `ast.Inspect` callback of the checker distinguishes
when it is invoked at one node of the file. -/
inductive VisitNode where
  | comp (ty : GoTypeExpr) (elts : GoExprList) (line : Nat)
  | assign (rhs : GoExprList)
  | ret (results : GoExprList)
  | typeSpec (name : String) (st : Option GoStructType)
  | funcDecl (name : String) (results : Option (List GoTypeExpr)) (startLine endLine : Nat)
  | otherVisit
deriving DecidableEq, Repr

mutual
/-- Preorder node visits of an expression, as produced by `ast.Inspect`. -/
def exprVisits : GoExpr → List VisitNode
  | .compositeLit ty elts line => .comp ty elts line :: exprListVisits elts
  | .otherExpr cs => .otherVisit :: exprListVisits cs

/-- Preorder node visits of an expression list. -/
def exprListVisits : GoExprList → List VisitNode
  | .nil => []
  | .cons e es => exprVisits e ++ exprListVisits es
end

mutual
/-- Preorder node visits of a statement, as produced by `ast.Inspect`. -/
def stmtVisits : GoStmt → List VisitNode
  | .assign lhs rhs => .assign rhs :: (exprListVisits lhs ++ exprListVisits rhs)
  | .ret rs => .ret rs :: exprListVisits rs
  | .exprStmt e => .otherVisit :: exprVisits e
  | .seq cs es => .otherVisit :: (stmtListVisits cs ++ exprListVisits es)

/-- Preorder node visits of a statement list. -/
def stmtListVisits : GoStmtList → List VisitNode
  | .nil => []
  | .cons s ss => stmtVisits s ++ stmtListVisits ss
end

/-- Preorder node visits of a top-level declaration. -/
def declVisits : GoDecl → List VisitNode
  | .typeDecl name st => [.typeSpec name st]
  | .varDecl inits => .otherVisit :: exprListVisits inits
  | .funcDecl name results body startLine endLine =>
    .funcDecl name results startLine endLine :: stmtListVisits body
  | .otherDecl => [.otherVisit]

/-- The sequence of nodes `ast.Inspect(file, ...)` presents to a callback. -/
def fileVisits (f : GoFile) : List VisitNode := concatMap declVisits f.decls

/-! ### The `filepath.Walk` model -/

/-- One callback invocation of `filepath.Walk`: the root-stat failure, a
per-entry filesystem error during traversal, or a visited path together with
its parse result (`parsed = none` models a `parser.ParseFile` failure or a
non-file entry). -/
inductive WalkCall where
  | rootErr (msg : String)
  | entryErr (path : String) (msg : String)
  | entry (path : String) (parsed : Option GoFile)
deriving DecidableEq, Repr

/-- A source tree as seen by `filepath.Walk`: either the root itself cannot be
enumerated (`rootError = some msg`), or the walk visits `entries` in order. -/
structure GoTree where
  rootError : Option String
  entries : List WalkCall
deriving DecidableEq, Repr

/-- The sequence of callback invocations `filepath.Walk` performs on a tree: a
failing root stat produces a single invocation carrying the error and no file
info; otherwise each entry is visited in order. -/
def walkCalls (t : GoTree) : List WalkCall :=
  match t.rootError with
  | some msg => [.rootErr msg]
  | none => t.entries

/-- Models `filepath.Walk`'s error plumbing: a callback may return an error,
which stops the walk and is returned to the caller of `Walk`; a walk whose
callbacks all return nil returns nil. -/
def filepathWalk (fn : σ → WalkCall → σ × Option String) : σ → List WalkCall → σ × Option String
  | s, [] => (s, none)
  | s, c :: cs =>
    match fn s c with
    | (s', none) => filepathWalk fn s' cs
    | (s', some e) => (s', some e)

/-! ### The canonical engine: `pkg/helpers/helpers.go` -/

namespace helpers

/-- Models `helpers.GetPackageAlias`, iterating over `file.Imports`: the
first import whose trimmed path equals `fullPackagePath` yields its explicit
alias, or the path's final segment when unaliased; otherwise the empty
string. -/
def GetPackageAlias (imports : List GoImport) (fullPackagePath : String) : String :=
  match imports with
  | [] => ""
  | imp :: rest =>
    if trimQuotes imp.pathValue = fullPackagePath then
      match imp.name with
      | some n => n
      | none => lastSegment fullPackagePath
    else GetPackageAlias rest fullPackagePath

/-- Models `helpers.IsSomeObjectTypeDeclaration`: the struct has a field list,
the file imports `fullPackage` under some alias, and some field entry declares
exactly one name equal to `markerField` with type `<alias>.<declaredName>`. -/
def IsSomeObjectTypeDeclaration (file : GoFile) (structType : GoStructType)
    (fullPackage markerField declaredName : String) : Bool :=
  match structType.fields with
  | none => false
  | some fields =>
    let pkgAlias := GetPackageAlias file.imports fullPackage
    if pkgAlias = "" then false
    else
      fields.any fun field =>
        match field.names, field.ftype with
        | [n], .selector (some x) sel =>
          n == markerField && x == pkgAlias && sel == declaredName
        | _, _ => false

/-- The `ast.Inspect` callback body of `helpers.FindTypeDeclarations` at one
node: a struct type spec passing the predicate adds
`currentPackage + "." + name` to the set. -/
def typeDeclVisitStep (isTypeDeclaration : GoFile → GoStructType → Bool) (file : GoFile)
    (acc : List String) : VisitNode → List String
  | .typeSpec name (some st) =>
    if isTypeDeclaration file st then insertSet (file.pkgName ++ "." ++ name) acc else acc
  | _ => acc

/-- The `filepath.Walk` callback of `helpers.FindTypeDeclarations`: skips
errors, non-`.go` files, `_test.go` files and parse failures, then inspects
the file; it always returns a nil error. -/
def typeDeclWalkStep (isTypeDeclaration : GoFile → GoStructType → Bool)
    (acc : List String) : WalkCall → List String × Option String
  | .rootErr _ => (acc, none)
  | .entryErr _ _ => (acc, none)
  | .entry path parsed =>
    if filepathExt path ≠ ".go" then (acc, none)
    else if goEndsWith path "_test.go" then (acc, none)
    else
      match parsed with
      | none => (acc, none)
      | some file =>
        ((fileVisits file).foldl (typeDeclVisitStep isTypeDeclaration file) acc, none)

/-- Models `helpers.FindTypeDeclarations`. -/
def FindTypeDeclarations (tree : GoTree) (isTypeDeclaration : GoFile → GoStructType → Bool) :
    Option (List String) × Option String :=
  match filepathWalk (typeDeclWalkStep isTypeDeclaration) [] (walkCalls tree) with
  | (acc, none) => (some acc, none)
  | (_, some e) => (none, some (gePin e))

/-- The composite key `path + ":" + funcDecl.Name.Name + ":" + typeKey` of the
constructors map. -/
def constructorKey (path funcName typeKey : String) : String :=
  path ++ ":" ++ funcName ++ ":" ++ typeKey

/-- The `ast.Inspect` callback body of `helpers.FindConstructors` at one node:
a function declaration named `New...` whose first result type is a bare
identifier naming a recorded type (package-qualified) records its file and
inclusive line span. -/
def constructorVisitStep (typeDeclarations : List String) (currentPackage path : String)
    (acc : List (String × ConstructorInfo)) : VisitNode → List (String × ConstructorInfo)
  | .funcDecl name results startLine endLine =>
    if goStartsWith name "New" = false then acc
    else
      match results with
      | some (GoTypeExpr.ident identName :: _) =>
        let typeKey := currentPackage ++ "." ++ identName
        if typeKey ∈ typeDeclarations then
          mapSet acc (constructorKey path name typeKey)
            { File := path, StartLine := startLine, EndLine := endLine }
        else acc
      | _ => acc
  | _ => acc

/-- The `filepath.Walk` callback of `helpers.FindConstructors`. -/
def constructorWalkStep (typeDeclarations : List String)
    (acc : List (String × ConstructorInfo)) :
    WalkCall → List (String × ConstructorInfo) × Option String
  | .rootErr _ => (acc, none)
  | .entryErr _ _ => (acc, none)
  | .entry path parsed =>
    if filepathExt path ≠ ".go" then (acc, none)
    else if goEndsWith path "_test.go" then (acc, none)
    else
      match parsed with
      | none => (acc, none)
      | some file =>
        ((fileVisits file).foldl
          (constructorVisitStep typeDeclarations file.pkgName path) acc, none)

/-- Models `helpers.FindConstructors`. -/
def FindConstructors (tree : GoTree) (typeDeclarations : List String) :
    Option (List (String × ConstructorInfo)) × Option String :=
  match filepathWalk (constructorWalkStep typeDeclarations) [] (walkCalls tree) with
  | (acc, none) => (some acc, none)
  | (_, some e) => (none, some (gePin e))

/-- Models `helpers.IsInsideConstructor`: some map entry whose key ends in
`":" + typeDeclaration` has the given file and a span containing the line. -/
def IsInsideConstructor (file : String) (line : Nat) (typeDeclaration : String)
    (constructors : List (String × ConstructorInfo)) : Bool :=
  constructors.any fun kc =>
    goEndsWith kc.1 (":" ++ typeDeclaration) && kc.2.File == file &&
      decide (kc.2.StartLine ≤ line) && decide (line ≤ kc.2.EndLine)

/-- The composite-literal candidate the scanner callback extracts from an
expression list: the first element that is itself a composite literal. -/
def firstCompLit : GoExprList → Option (GoTypeExpr × GoExprList × Nat)
  | .nil => none
  | .cons (.compositeLit ty elts line) _ => some (ty, elts, line)
  | .cons (.otherExpr _) rest => firstCompLit rest

/-- The composite literal the scanner callback considers at one node: the node
itself, the first literal on an assignment's right-hand side, or the first
literal among a return's results. -/
def visitCompLit : VisitNode → Option (GoTypeExpr × GoExprList × Nat)
  | .comp ty elts line => some (ty, elts, line)
  | .assign rhs => firstCompLit rhs
  | .ret results => firstCompLit results
  | _ => none

/-- The import-resolution loop of `helpers.FindZeroValueInitializations` for a
selector type `typePackage.TypeName`: an explicit alias equal to `typePackage`
rewrites it to the import path's final segment; an unaliased import whose final
segment equals `typePackage` stops the loop without change. -/
def resolveSelectorPackage (imports : List GoImport) (typePackage : String) : String :=
  match imports with
  | [] => typePackage
  | imp :: rest =>
    let importPath := trimQuotes imp.pathValue
    match imp.name with
    | some n =>
      if n = typePackage then lastSegment importPath
      else resolveSelectorPackage rest typePackage
    | none =>
      if lastSegment importPath = typePackage then typePackage
      else resolveSelectorPackage rest typePackage

/-- Resolution of a composite literal's declared type to the qualified key
`typePackage + "." + typeName` performed by
`helpers.FindZeroValueInitializations`: a bare identifier resolves to the
current package; a selector resolves its package through the imports; any
other type expression is skipped. -/
def resolveTypeKey (currentPackage : String) (imports : List GoImport) :
    GoTypeExpr → Option String
  | .ident name => some (currentPackage ++ "." ++ name)
  | .selector x sel =>
    match x with
    | some pkgIdent => some (resolveSelectorPackage imports pkgIdent ++ "." ++ sel)
    | none => some (currentPackage ++ "." ++ sel)
  | .otherType => none

/-- The violation message produced by `fmt.Sprintf` in
`helpers.FindZeroValueInitializations`. -/
def violationString (markerName typeKey path : String) (line : Nat) : String :=
  "VIOLATION: Direct zero-value initialization of " ++ markerName ++ " " ++ typeKey ++
    " at " ++ path ++ ":" ++ natRepr line

/-- The full decision the scanner callback takes at one node: the violation
message it records, if any. -/
def scanHit (currentPackage : String) (imports : List GoImport) (markerName : String)
    (typeDeclarations : List String) (constructors : List (String × ConstructorInfo))
    (path : String) (v : VisitNode) : Option String :=
  match visitCompLit v with
  | none => none
  | some (ty, elts, line) =>
    if elts.length ≠ 0 then none
    else
      match resolveTypeKey currentPackage imports ty with
      | none => none
      | some typeKey =>
        if typeKey ∉ typeDeclarations then none
        else if IsInsideConstructor path line typeKey constructors then none
        else some (violationString markerName typeKey path line)

/-- The `ast.Inspect` callback body of `helpers.FindZeroValueInitializations`
at one node, accumulating the violations set. -/
def scanVisitStep (currentPackage : String) (imports : List GoImport) (markerName : String)
    (typeDeclarations : List String) (constructors : List (String × ConstructorInfo))
    (path : String) (acc : List String) (v : VisitNode) : List String :=
  match scanHit currentPackage imports markerName typeDeclarations constructors path v with
  | some s => insertSet s acc
  | none => acc

/-- The `filepath.Walk` callback of `helpers.FindZeroValueInitializations`. -/
def scanWalkStep (markerName : String) (typeDeclarations : List String)
    (constructors : List (String × ConstructorInfo)) (acc : List String) :
    WalkCall → List String × Option String
  | .rootErr _ => (acc, none)
  | .entryErr _ _ => (acc, none)
  | .entry path parsed =>
    if filepathExt path ≠ ".go" then (acc, none)
    else if goEndsWith path "_test.go" then (acc, none)
    else
      match parsed with
      | none => (acc, none)
      | some file =>
        ((fileVisits file).foldl
          (scanVisitStep file.pkgName file.imports markerName typeDeclarations
            constructors path) acc, none)

/-- Models `helpers.FindZeroValueInitializations`. -/
def FindZeroValueInitializations (tree : GoTree) (markerName : String)
    (typeDeclarations : List String) (constructors : List (String × ConstructorInfo)) :
    Option (List String) × Option String :=
  match filepathWalk (scanWalkStep markerName typeDeclarations constructors) []
      (walkCalls tree) with
  | (acc, none) => (some acc, none)
  | (_, some e) => (none, some (gePin e))

end helpers

/-! ### The marker-kind wrappers -/

/-- Report shape shared by the marker-kind wrappers
(`ValidateValueObjectsReport`, `ValidateCommandsReport`, ...). -/
structure SomeObjectsReport where
  Types : List String
  Constructors : List (String × ConstructorInfo)
  Violations : List String
deriving DecidableEq, Repr

/-- Common body of the per-marker-kind `Validate...` functions, which are
textually identical up to the type-declaration predicate and the marker name:
run the three phases in order, propagating a (wrapped) phase error, and return
the nil-report signal when no marked types were found. -/
def ValidateSomeObjects (isTypeDeclaration : GoFile → GoStructType → Bool)
    (declaredName : String) (tree : GoTree) : Option SomeObjectsReport × Option String :=
  match helpers.FindTypeDeclarations tree isTypeDeclaration with
  | (types?, err1) =>
    match err1 with
    | some e => (none, some (gePin e))
    | none =>
      let types := types?.getD []
      if types.length = 0 then (none, none)
      else
        match helpers.FindConstructors tree types with
        | (constructors?, err2) =>
          match err2 with
          | some e => (none, some (gePin e))
          | none =>
            let constructors := constructors?.getD []
            match helpers.FindZeroValueInitializations tree declaredName types constructors with
            | (violations?, err3) =>
              match err3 with
              | some e => (none, some (gePin e))
              | none =>
                (some { Types := types, Constructors := constructors,
                        Violations := violations?.getD [] }, none)

namespace valueobject

/-- The `DeclaredName` constant of package `valueobject`. -/
def DeclaredName : String := "ValueObject"

/-- The `MarkerField` constant of package `valueobject`. -/
def MarkerField : String := "_"

/-- The `FullPackage` constant of package `valueobject`. -/
def FullPackage : String :=
  "github.com/nobuenhombre/dddgo/pkg/layers/infrastructure/interface-adapters/application/domain/objects/value-object"

/-- Models `valueobject.IsValueObjectTypeDeclaration`. -/
def IsValueObjectTypeDeclaration (file : GoFile) (structType : GoStructType) : Bool :=
  helpers.IsSomeObjectTypeDeclaration file structType FullPackage MarkerField DeclaredName

/-- Models `valueobject.ValidateValueObjects`. -/
def ValidateValueObjects (tree : GoTree) : Option SomeObjectsReport × Option String :=
  ValidateSomeObjects IsValueObjectTypeDeclaration DeclaredName tree

end valueobject

namespace commands

/-- The `DeclaredName` constant of package `commands`. -/
def DeclaredName : String := "Command"

/-- The `MarkerField` constant of package `commands`. -/
def MarkerField : String := "_"

/-- The `FullPackage` constant of package `commands`. -/
def FullPackage : String :=
  "github.com/nobuenhombre/dddgo/pkg/layers/infrastructure/interface-adapters/application/objects/commands"

/-- Models `commands.IsCommandTypeDeclaration`. -/
def IsCommandTypeDeclaration (file : GoFile) (structType : GoStructType) : Bool :=
  helpers.IsSomeObjectTypeDeclaration file structType FullPackage MarkerField DeclaredName

/-- Models `commands.ValidateCommands`. -/
def ValidateCommands (tree : GoTree) : Option SomeObjectsReport × Option String :=
  ValidateSomeObjects IsCommandTypeDeclaration DeclaredName tree

end commands

namespace entity

/-- The `DeclaredName` constant of package `entity`. -/
def DeclaredName : String := "Entity"

/-- The `MarkerField` constant of package `entity`. -/
def MarkerField : String := "_"

/-- The `FullPackage` constant of package `entity`. -/
def FullPackage : String :=
  "github.com/nobuenhombre/dddgo/pkg/layers/infrastructure/interface-adapters/application/domain/objects/entity"

/-- Models `entity.IsEntityTypeDeclaration`. -/
def IsEntityTypeDeclaration (file : GoFile) (structType : GoStructType) : Bool :=
  helpers.IsSomeObjectTypeDeclaration file structType FullPackage MarkerField DeclaredName

end entity

/-! ### The legacy variant

The repository also contains an older, overlapping variant of the same engine
(the unnamed `helpers` file and the self-contained `valueobject` file) whose
phases key everything by bare type name: `FindTypeDeclarations` records
`typeSpec.Name.Name` without a package, `FindConstructors` keys records by
`funcName + ":" + typeName`, and `findZeroValueInitializations` resolves a
literal's type to its bare name (`typ.Name` or `typ.Sel.Name`) without
any import resolution. -/

namespace legacy

/-- The `ast.Inspect` callback body of the legacy `FindTypeDeclarations`:
records the bare `typeSpec.Name.Name`. -/
def typeDeclVisitStep (isTypeDeclaration : GoFile → GoStructType → Bool) (file : GoFile)
    (acc : List String) : VisitNode → List String
  | .typeSpec name (some st) =>
    if isTypeDeclaration file st then insertSet name acc else acc
  | _ => acc

/-- The `filepath.Walk` callback of the legacy `FindTypeDeclarations`. -/
def typeDeclWalkStep (isTypeDeclaration : GoFile → GoStructType → Bool)
    (acc : List String) : WalkCall → List String × Option String
  | .rootErr _ => (acc, none)
  | .entryErr _ _ => (acc, none)
  | .entry path parsed =>
    if filepathExt path ≠ ".go" then (acc, none)
    else if goEndsWith path "_test.go" then (acc, none)
    else
      match parsed with
      | none => (acc, none)
      | some file =>
        ((fileVisits file).foldl (typeDeclVisitStep isTypeDeclaration file) acc, none)

/-- Models the legacy `FindTypeDeclarations` (bare type names). -/
def FindTypeDeclarations (tree : GoTree) (isTypeDeclaration : GoFile → GoStructType → Bool) :
    Option (List String) × Option String :=
  match filepathWalk (typeDeclWalkStep isTypeDeclaration) [] (walkCalls tree) with
  | (acc, none) => (some acc, none)
  | (_, some e) => (none, some (gePin e))

/-- The `ast.Inspect` callback body of the legacy `FindConstructors`: bare-name
type test and the file-less key `funcName + ":" + typeName`. -/
def constructorVisitStep (typeDeclarations : List String) (path : String)
    (acc : List (String × ConstructorInfo)) : VisitNode → List (String × ConstructorInfo)
  | .funcDecl name results startLine endLine =>
    if goStartsWith name "New" = false then acc
    else
      match results with
      | some (GoTypeExpr.ident identName :: _) =>
        if identName ∈ typeDeclarations then
          mapSet acc (name ++ ":" ++ identName)
            { File := path, StartLine := startLine, EndLine := endLine }
        else acc
      | _ => acc
  | _ => acc

/-- The `filepath.Walk` callback of the legacy `FindConstructors`. -/
def constructorWalkStep (typeDeclarations : List String)
    (acc : List (String × ConstructorInfo)) :
    WalkCall → List (String × ConstructorInfo) × Option String
  | .rootErr _ => (acc, none)
  | .entryErr _ _ => (acc, none)
  | .entry path parsed =>
    if filepathExt path ≠ ".go" then (acc, none)
    else if goEndsWith path "_test.go" then (acc, none)
    else
      match parsed with
      | none => (acc, none)
      | some file =>
        ((fileVisits file).foldl (constructorVisitStep typeDeclarations path) acc, none)

/-- Models the legacy `FindConstructors` (bare type names, file-less keys). -/
def FindConstructors (tree : GoTree) (typeDeclarations : List String) :
    Option (List (String × ConstructorInfo)) × Option String :=
  match filepathWalk (constructorWalkStep typeDeclarations) [] (walkCalls tree) with
  | (acc, none) => (some acc, none)
  | (_, some e) => (none, some (gePin e))

/-- The bare type name the legacy scanner extracts from a literal's type:
`typ.Name` for an identifier, `typ.Sel.Name` for a selector, skip otherwise;
no import resolution is performed. -/
def bareTypeName : GoTypeExpr → Option String
  | .ident name => some name
  | .selector _ sel => some sel
  | .otherType => none

/-- The full decision the legacy scanner callback takes at one node
(`IsInsideConstructor` is textually identical to the helpers version and is
reused). -/
def scanHit (markerName : String) (typeDeclarations : List String)
    (constructors : List (String × ConstructorInfo)) (path : String)
    (v : VisitNode) : Option String :=
  match helpers.visitCompLit v with
  | none => none
  | some (ty, elts, line) =>
    if elts.length ≠ 0 then none
    else
      match bareTypeName ty with
      | none => none
      | some typeName =>
        if typeName ∉ typeDeclarations then none
        else if helpers.IsInsideConstructor path line typeName constructors then none
        else some (helpers.violationString markerName typeName path line)

/-- The `ast.Inspect` callback body of the legacy scanner at one node. -/
def scanVisitStep (markerName : String) (typeDeclarations : List String)
    (constructors : List (String × ConstructorInfo)) (path : String)
    (acc : List String) (v : VisitNode) : List String :=
  match scanHit markerName typeDeclarations constructors path v with
  | some s => insertSet s acc
  | none => acc

/-- The `filepath.Walk` callback of the legacy scanner. -/
def scanWalkStep (markerName : String) (typeDeclarations : List String)
    (constructors : List (String × ConstructorInfo)) (acc : List String) :
    WalkCall → List String × Option String
  | .rootErr _ => (acc, none)
  | .entryErr _ _ => (acc, none)
  | .entry path parsed =>
    if filepathExt path ≠ ".go" then (acc, none)
    else if goEndsWith path "_test.go" then (acc, none)
    else
      match parsed with
      | none => (acc, none)
      | some file =>
        ((fileVisits file).foldl
          (scanVisitStep markerName typeDeclarations constructors path) acc, none)

/-- Models the legacy `FindZeroValueInitializations` (bare type names). -/
def FindZeroValueInitializations (tree : GoTree) (markerName : String)
    (typeDeclarations : List String) (constructors : List (String × ConstructorInfo)) :
    Option (List String) × Option String :=
  match filepathWalk (scanWalkStep markerName typeDeclarations constructors) []
      (walkCalls tree) with
  | (acc, none) => (some acc, none)
  | (_, some e) => (none, some (gePin e))

end legacy

/-! ### Derived notions used to state the properties -/

/-- A walk entry that all three phases actually analyse: the root enumeration
succeeded, the entry is a parsed `.go` file, and it is not a `_test.go`
file. -/
def processedEntry (tree : GoTree) (path : String) (f : GoFile) : Prop :=
  tree.rootError = none ∧ WalkCall.entry path (some f) ∈ tree.entries ∧
    filepathExt path = ".go" ∧ goEndsWith path "_test.go" = false

instance (tree : GoTree) (path : String) (f : GoFile) :
    Decidable (processedEntry tree path f) := by
  unfold processedEntry
  infer_instance

/-- Whether a string is free of colons (true of every Go identifier and of
every qualified `package.Type` key built from identifiers). -/
def colonFree (s : String) : Bool := s.data.all (fun c => c != ':')

/-- The produced-type component of a constructors-map key
`path:funcName:typeKey`: the characters after the last colon. -/
def keyTypeComponent (k : String) : String :=
  ⟨(k.data.reverse.takeWhile (fun c => c != ':')).reverse⟩

/-- The record the `FindConstructors` callback produces at one node, if any:
its map key together with its `ConstructorInfo`. -/
def constructorHit (typeDeclarations : List String) (currentPackage path : String) :
    VisitNode → Option (String × ConstructorInfo)
  | .funcDecl name results startLine endLine =>
    if goStartsWith name "New" = false then none
    else
      match results with
      | some (GoTypeExpr.ident identName :: _) =>
        let typeKey := currentPackage ++ "." ++ identName
        if typeKey ∈ typeDeclarations then
          some (helpers.constructorKey path name typeKey,
            { File := path, StartLine := startLine, EndLine := endLine })
        else none
      | _ => none
  | _ => none

/-- The type key the `FindTypeDeclarations` callback records at one node, if
any. -/
def typeDeclHit (isTypeDeclaration : GoFile → GoStructType → Bool) (file : GoFile) :
    VisitNode → Option String
  | .typeSpec name (some st) =>
    if isTypeDeclaration file st then some (file.pkgName ++ "." ++ name) else none
  | _ => none

/-- A constructor declaration, as `FindConstructors` recognises one: a visited
function declaration node in a processed file, named with the `New` convention,
whose first result type is the bare identifier `n` with
`tk = pkgName + "." + n` a recorded type key. -/
def ConstructorDeclFor (tree : GoTree) (types : List String) (path fname tk : String)
    (startLine endLine : Nat) : Prop :=
  ∃ f rest n, processedEntry tree path f ∧
    VisitNode.funcDecl fname (some (GoTypeExpr.ident n :: rest)) startLine endLine
      ∈ fileVisits f ∧
    goStartsWith fname "New" = true ∧
    tk = f.pkgName ++ "." ++ n ∧ tk ∈ types

/-- Well-formedness of the identifiers that end up in constructor-map keys:
every processed file's package name, and every visited constructor-shaped
function declaration's name and result identifier, are colon-free.  This holds
of every real Go file, since Go identifiers cannot contain a colon. -/
def constructorIdentsColonFree (tree : GoTree) : Bool :=
  tree.entries.all fun c =>
    match c with
    | .entry _ (some f) =>
      colonFree f.pkgName && (fileVisits f).all fun v =>
        match v with
        | .funcDecl fname (some (GoTypeExpr.ident n :: _)) _ _ =>
          colonFree fname && colonFree n
        | _ => true
    | _ => true

/-! ### Syntactic containment of composite literals

An inductive rendering of "this composite literal occurs somewhere in the
file", independent of the visit computation, used to state that the scanner
examines literals at every syntactic position. -/

/-- Membership of an expression in an expression list. -/
inductive MemE : GoExpr → GoExprList → Prop
  | head (e : GoExpr) (es : GoExprList) : MemE e (.cons e es)
  | tail (e h : GoExpr) (es : GoExprList) : MemE e es → MemE e (.cons h es)

/-- Membership of a statement in a statement list. -/
inductive MemS : GoStmt → GoStmtList → Prop
  | head (s : GoStmt) (ss : GoStmtList) : MemS s (.cons s ss)
  | tail (s h : GoStmt) (ss : GoStmtList) : MemS s ss → MemS s (.cons h ss)

/-- The expression `l` occurs (possibly nested) within the expression `e`. -/
inductive LitInExpr : GoExpr → GoExpr → Prop
  | self (e : GoExpr) : LitInExpr e e
  | inElts {l c : GoExpr} {ty : GoTypeExpr} {elts : GoExprList} {line : Nat} :
      MemE c elts → LitInExpr l c → LitInExpr l (.compositeLit ty elts line)
  | inChildren {l c : GoExpr} {cs : GoExprList} :
      MemE c cs → LitInExpr l c → LitInExpr l (.otherExpr cs)

/-- The expression `l` occurs (possibly nested) within the statement `s`. -/
inductive LitInStmt : GoExpr → GoStmt → Prop
  | inAssignLhs {l e : GoExpr} {lhs rhs : GoExprList} :
      MemE e lhs → LitInExpr l e → LitInStmt l (.assign lhs rhs)
  | inAssignRhs {l e : GoExpr} {lhs rhs : GoExprList} :
      MemE e rhs → LitInExpr l e → LitInStmt l (.assign lhs rhs)
  | inRet {l e : GoExpr} {rs : GoExprList} :
      MemE e rs → LitInExpr l e → LitInStmt l (.ret rs)
  | inExprStmt {l e : GoExpr} : LitInExpr l e → LitInStmt l (.exprStmt e)
  | inSeqStmt {l : GoExpr} {s : GoStmt} {cs : GoStmtList} {es : GoExprList} :
      MemS s cs → LitInStmt l s → LitInStmt l (.seq cs es)
  | inSeqExpr {l e : GoExpr} {cs : GoStmtList} {es : GoExprList} :
      MemE e es → LitInExpr l e → LitInStmt l (.seq cs es)

/-- The expression `l` occurs (possibly nested) within the declaration `d`. -/
inductive LitInDecl : GoExpr → GoDecl → Prop
  | inVar {l e : GoExpr} {inits : GoExprList} :
      MemE e inits → LitInExpr l e → LitInDecl l (.varDecl inits)
  | inBody {l : GoExpr} {s : GoStmt} {name : String} {results : Option (List GoTypeExpr)}
      {body : GoStmtList} {startLine endLine : Nat} :
      MemS s body → LitInStmt l s →
      LitInDecl l (.funcDecl name results body startLine endLine)

/-- The expression `l` occurs (possibly nested) somewhere in the file. -/
def LitInFile (l : GoExpr) (f : GoFile) : Prop := ∃ d ∈ f.decls, LitInDecl l d

/-! ### Statements of the specification's wording

These definitions follow the natural-language claims rather than the source;
they exist only to compare the two. -/

/-- Modelled from the claim's words for the marker-field condition: the
struct's field list contains exactly one declared field named exactly the
marker field name, and the field entry declaring it has a type that is a
package-qualified selector resolving, via the file's import alias table, to
the marker's declaring package and marker type name. -/
def specExactlyOneMarkerFieldResolving (file : GoFile) (fields : List GoField)
    (fullPackage markerField declaredName : String) : Prop :=
  (concatMap (fun fd => fd.names) fields).count markerField = 1 ∧
    ∃ fd ∈ fields, markerField ∈ fd.names ∧
      helpers.GetPackageAlias file.imports fullPackage ≠ "" ∧
      fd.ftype = GoTypeExpr.selector
        (some (helpers.GetPackageAlias file.imports fullPackage)) declaredName

instance (file : GoFile) (fields : List GoField) (a b c : String) :
    Decidable (specExactlyOneMarkerFieldResolving file fields a b c) := by
  unfold specExactlyOneMarkerFieldResolving
  infer_instance

/-- Modelled from the claim's words for the constructor-result condition: the
function's first declared result type, whether a qualified or an unqualified
identifier, matches a member of the type set under package-qualified
comparison (a bare identifier is compared as `pkgName + "." + name`, a
selector `pkg.Name` as `pkg + "." + Name`). -/
def specResultMatchesMarked (pkgName : String) (types : List String) :
    GoTypeExpr → Prop
  | .ident name => (pkgName ++ "." ++ name) ∈ types
  | .selector (some x) sel => (x ++ "." ++ sel) ∈ types
  | _ => False

instance (pkg : String) (types : List String) (t : GoTypeExpr) :
    Decidable (specResultMatchesMarked pkg types t) :=
  match t with
  | .ident name => inferInstanceAs (Decidable ((pkg ++ "." ++ name) ∈ types))
  | .selector (some x) sel => inferInstanceAs (Decidable ((x ++ "." ++ sel) ∈ types))
  | .selector none _ => inferInstanceAs (Decidable False)
  | .otherType => inferInstanceAs (Decidable False)

/-! ### Concrete example trees -/

/-- An import of the value-object marker package under the explicit alias
`vo`. -/
def exVoImp : GoImport :=
  { name := some "vo"
    pathValue := "\"github.com/nobuenhombre/dddgo/pkg/layers/infrastructure/interface-adapters/application/domain/objects/value-object\"" }

/-- `type Money struct { amount int; _ vo.ValueObject }`. -/
def exMoneyStruct : GoStructType :=
  { fields := some [⟨["amount"], .otherType⟩, ⟨["_"], .selector (some "vo") "ValueObject"⟩] }

/-- The literal `Money{}` at a given line. -/
def exMoneyLit (line : Nat) : GoExpr := .compositeLit (.ident "Money") .nil line

/-- A file declaring the marked `Money`, its constructor `NewMoney` (lines
10-13, returning `Money{}` at line 12), a bare `Money{}` at line 20, and a
`Money{}` nested as a call argument at line 30. -/
def exMoneyFile : GoFile :=
  { pkgName := "money"
    imports := [exVoImp]
    decls :=
      [ .typeDecl "Money" (some exMoneyStruct)
      , .funcDecl "NewMoney" (some [.ident "Money"])
          (.cons (.ret (.cons (exMoneyLit 12) .nil)) .nil) 10 13
      , .varDecl (.cons (exMoneyLit 20) .nil)
      , .varDecl (.cons (.otherExpr (.cons (exMoneyLit 30) .nil)) .nil) ] }

/-- A one-file tree around `exMoneyFile`. -/
def exTree : GoTree := { rootError := none, entries := [.entry "money.go" (some exMoneyFile)] }

/-- The qualified marked-type set of `exTree`. -/
def exTypes : List String := ["money.Money"]

/-- The constructor records of `exTree`. -/
def exConstructors : List (String × ConstructorInfo) :=
  (helpers.FindConstructors exTree exTypes).1.getD []

/-- A field entry `x, _ vo.ValueObject` declaring two fields at once. -/
def c2Fields : List GoField := [⟨["x", "_"], .selector (some "vo") "ValueObject"⟩]

/-- A struct whose only field entry is `x, _ vo.ValueObject`. -/
def c2Struct : GoStructType := ⟨some c2Fields⟩

/-- A file declaring that struct. -/
def c2File : GoFile := ⟨"bank", [exVoImp], [.typeDecl "Money" (some c2Struct)]⟩

/-- A one-file tree around `c2File`. -/
def c2Tree : GoTree := ⟨none, [.entry "bank.go" (some c2File)]⟩

/-- A file declaring the marked `money.Money` and nothing else. -/
def c3MarkedFile : GoFile := ⟨"money", [exVoImp], [.typeDecl "Money" (some exMoneyStruct)]⟩

/-- A file in an unrelated package `other` declaring its own unmarked `Money`
and constructing `Money{}` at line 7. -/
def c3OtherFile : GoFile :=
  ⟨"other", [],
    [.typeDecl "Money" (some ⟨some [⟨["x"], .otherType⟩]⟩),
     .varDecl (.cons (.compositeLit (.ident "Money") .nil 7) .nil)]⟩

/-- The two files together. -/
def c3Tree : GoTree :=
  ⟨none, [.entry "money.go" (some c3MarkedFile), .entry "other.go" (some c3OtherFile)]⟩

/-- A tree whose root cannot be enumerated, although it contains a marked type
and a violating literal. -/
def c4Tree : GoTree :=
  ⟨some "open /missing-root: no such file or directory",
    [.entry "money.go" (some exMoneyFile)]⟩

/-- A file whose `NewMoney` returns the qualified type `money.Money`. -/
def c5File : GoFile :=
  ⟨"shop", [], [.funcDecl "NewMoney" (some [.selector (some "money") "Money"]) .nil 5 8]⟩

/-- A one-file tree around `c5File`. -/
def c5Tree : GoTree := ⟨none, [.entry "shop.go" (some c5File)]⟩

/-- A constructor `NewMoney` for `money.Money` in a first file. -/
def c6File1 : GoFile := ⟨"money", [], [.funcDecl "NewMoney" (some [.ident "Money"]) .nil 3 6]⟩

/-- The same-named constructor for the same type in a second file. -/
def c6File2 : GoFile := ⟨"money", [], [.funcDecl "NewMoney" (some [.ident "Money"]) .nil 4 9]⟩

/-- The two constructor files together. -/
def c6Tree : GoTree :=
  ⟨none, [.entry "money1.go" (some c6File1), .entry "money2.go" (some c6File2)]⟩

/-- A file with a marked-type zero-value construction, to be placed under a
test-suffixed path. -/
def c9TestFile : GoFile := ⟨"money", [exVoImp], [.varDecl (.cons (exMoneyLit 5) .nil)]⟩

/-- The empty tree. -/
def c8Tree : GoTree := ⟨none, []⟩

/-! ## Theorems -/

/-! ### Set, map and fold lemmas -/

theorem mem_insertSet {s t : String} {l : List String} :
    s ∈ insertSet t l ↔ s = t ∨ s ∈ l := by
  unfold insertSet
  split
  · constructor
    · exact fun h => Or.inr h
    · rintro (rfl | h)
      · assumption
      · assumption
  · simp [or_comm]

theorem nodup_insertSet {t : String} {l : List String} (h : l.Nodup) :
    (insertSet t l).Nodup := by
  unfold insertSet
  split
  · exact h
  · next hmem => simpa [List.nodup_append] using ⟨h, fun h' => hmem h'⟩

theorem foldl_union_mem {α : Type} (step : List String → α → List String)
    (C : α → String → Prop)
    (h : ∀ acc x s, s ∈ step acc x ↔ s ∈ acc ∨ C x s) :
    ∀ (l : List α) (acc : List String) (s : String),
      s ∈ l.foldl step acc ↔ s ∈ acc ∨ ∃ x ∈ l, C x s := by
  intro l
  induction l with
  | nil => simp
  | cons x xs ih =>
    intro acc s
    rw [List.foldl_cons, ih, h]
    constructor
    · rintro ((hs | hc) | ⟨y, hy, hcy⟩)
      · exact Or.inl hs
      · exact Or.inr ⟨x, by simp, hc⟩
      · exact Or.inr ⟨y, by simp [hy], hcy⟩
    · rintro (hs | ⟨y, hy, hcy⟩)
      · exact Or.inl (Or.inl hs)
      · rcases List.mem_cons.mp hy with rfl | hy'
        · exact Or.inl (Or.inr hcy)
        · exact Or.inr ⟨y, hy', hcy⟩

theorem foldl_nodup_pres {α : Type} (step : List String → α → List String)
    (h : ∀ acc x, acc.Nodup → (step acc x).Nodup) :
    ∀ (l : List α) (acc : List String), acc.Nodup → (l.foldl step acc).Nodup := by
  intro l
  induction l with
  | nil => exact fun acc h' => h'
  | cons x xs ih => exact fun acc h' => ih _ (h acc x h')

theorem mapSet_self_mem (m : List (String × ConstructorInfo)) (k : String)
    (v : ConstructorInfo) : (k, v) ∈ mapSet m k v := by
  unfold mapSet
  split
  · next hany =>
    rcases List.any_eq_true.mp hany with ⟨kv, hkv, hk⟩
    refine List.mem_map.mpr ⟨kv, hkv, ?_⟩
    simp only [beq_iff_eq] at hk
    simp [hk]
  · simp

theorem mapSet_mem_src {m : List (String × ConstructorInfo)} {k k' : String}
    {v v' : ConstructorInfo} (h : (k', v') ∈ mapSet m k v) :
    (k' = k ∧ v' = v) ∨ ((k', v') ∈ m ∧ k' ≠ k) := by
  unfold mapSet at h
  split at h
  · rcases List.mem_map.mp h with ⟨kv, hkv, heq⟩
    by_cases hk : kv.1 = k
    · rw [if_pos (by simpa using hk)] at heq
      left
      exact ⟨(congrArg Prod.fst heq).symm, (congrArg Prod.snd heq).symm⟩
    · rw [if_neg (by simpa using hk)] at heq
      subst heq
      exact Or.inr ⟨hkv, by simpa using hk⟩
  · next hany =>
    rcases List.mem_append.mp h with hm | hm
    · by_cases hk : k' = k
      · subst hk
        exact absurd (List.any_eq_true.mpr ⟨(k', v'), hm, by simp⟩) hany
      · exact Or.inr ⟨hm, hk⟩
    · left
      simpa using hm

theorem mapSet_key_pres {m : List (String × ConstructorInfo)} {k' : String}
    (k : String) (v : ConstructorInfo) (h : ∃ v', (k', v') ∈ m) :
    ∃ v', (k', v') ∈ mapSet m k v := by
  rcases h with ⟨v', hv'⟩
  by_cases hk : k' = k
  · exact ⟨v, hk ▸ mapSet_self_mem m k v⟩
  · unfold mapSet
    split
    · refine ⟨v', List.mem_map.mpr ⟨(k', v'), hv', ?_⟩⟩
      simp [hk]
    · exact ⟨v', List.mem_append.mpr (Or.inl hv')⟩

theorem foldl_mapSet_origin {α : Type} (step : List (String × ConstructorInfo) → α →
      List (String × ConstructorInfo)) (W : α → String × ConstructorInfo → Prop)
    (h : ∀ acc x k v, (k, v) ∈ step acc x → (k, v) ∈ acc ∨ W x (k, v)) :
    ∀ (l : List α) (acc : List (String × ConstructorInfo)) (k : String)
      (v : ConstructorInfo),
      (k, v) ∈ l.foldl step acc → (k, v) ∈ acc ∨ ∃ x ∈ l, W x (k, v) := by
  intro l
  induction l with
  | nil => simp
  | cons x xs ih =>
    intro acc k v hmem
    rcases ih (step acc x) k v hmem with hacc | ⟨y, hy, hw⟩
    · rcases h acc x k v hacc with hacc' | hw
      · exact Or.inl hacc'
      · exact Or.inr ⟨x, by simp, hw⟩
    · exact Or.inr ⟨y, by simp [hy], hw⟩

theorem foldl_mapSet_keysurvive {α : Type} (step : List (String × ConstructorInfo) → α →
      List (String × ConstructorInfo)) (W : α → String × ConstructorInfo → Prop)
    (hkeep : ∀ acc x k, (∃ v, (k, v) ∈ acc) → ∃ v', (k, v') ∈ step acc x)
    (hadd : ∀ acc x k v, W x (k, v) → ∃ v', (k, v') ∈ step acc x) :
    ∀ (l : List α) (acc : List (String × ConstructorInfo)) (k : String),
      ((∃ v, (k, v) ∈ acc) ∨ ∃ x ∈ l, ∃ v, W x (k, v)) →
        ∃ v', (k, v') ∈ l.foldl step acc := by
  intro l
  induction l with
  | nil =>
    rintro acc k (h | ⟨x, hx, _⟩)
    · exact h
    · simp at hx
  | cons x xs ih =>
    rintro acc k (h | ⟨y, hy, v, hw⟩)
    · exact ih (step acc x) k (Or.inl (hkeep acc x k h))
    · rcases List.mem_cons.mp hy with rfl | hy'
      · exact ih (step acc y) k (Or.inl (hadd acc y k v hw))
      · exact ih (step acc x) k (Or.inr ⟨y, hy', v, hw⟩)

/-! ### The `filepath.Walk` model -/

theorem filepathWalk_no_err {σ : Type} (fn : σ → WalkCall → σ × Option String)
    (h : ∀ s c, (fn s c).2 = none) :
    ∀ (calls : List WalkCall) (s : σ),
      filepathWalk fn s calls = (calls.foldl (fun a c => (fn a c).1) s, none) := by
  intro calls
  induction calls with
  | nil => intro s; rfl
  | cons c cs ih =>
    intro s
    have h2 := h s c
    rcases hfc : fn s c with ⟨s', e⟩
    simp only [hfc] at h2
    subst h2
    simp only [filepathWalk, hfc, List.foldl_cons, ih]

/-! ### String lemmas -/

theorem listIsPre_iff : ∀ l₁ l₂ : List Char, listIsPre l₁ l₂ = true ↔ ∃ rest, l₂ = l₁ ++ rest := by
  intro l₁
  induction l₁ with
  | nil => intro l₂; simp [listIsPre]
  | cons a as ih =>
    intro l₂
    cases l₂ with
    | nil => simp [listIsPre]
    | cons b bs =>
      simp only [listIsPre, Bool.and_eq_true, beq_iff_eq, ih, List.cons_append,
        List.cons.injEq]
      constructor
      · rintro ⟨rfl, rest, rfl⟩
        exact ⟨rest, rfl, rfl⟩
      · rintro ⟨rest, hba, hrest⟩
        exact ⟨hba.symm, rest, hrest⟩

theorem goEndsWith_iff (s suf : String) :
    goEndsWith s suf = true ↔ ∃ pre, s.data = pre ++ suf.data := by
  unfold goEndsWith
  rw [listIsPre_iff]
  constructor
  · rintro ⟨rest, hr⟩
    refine ⟨rest.reverse, ?_⟩
    have := congrArg List.reverse hr
    simpa [List.reverse_append] using this
  · rintro ⟨pre, hp⟩
    refine ⟨pre.reverse, ?_⟩
    rw [hp]
    simp [List.reverse_append]

theorem append_cons_inj {c : Char} :
    ∀ {a : List Char} {x b y : List Char}, c ∉ a → c ∉ x →
      a ++ c :: b = x ++ c :: y → a = x ∧ b = y := by
  intro a
  induction a with
  | nil =>
    intro x b y _ hx heq
    cases x with
    | nil => simpa using heq
    | cons x0 xs =>
      simp only [List.nil_append, List.cons_append, List.cons.injEq] at heq
      have : c ∈ x0 :: xs := by rw [heq.1]; exact List.mem_cons_self x0 xs
      exact absurd this hx
  | cons a0 as ih =>
    intro x b y ha hx heq
    cases x with
    | nil =>
      simp only [List.nil_append, List.cons_append, List.cons.injEq] at heq
      have : c ∈ a0 :: as := by rw [← heq.1]; exact List.mem_cons_self a0 as
      exact absurd this ha
    | cons x0 xs =>
      simp only [List.cons_append, List.cons.injEq] at heq
      obtain ⟨h1, h2⟩ := heq
      have ha' : c ∉ as := fun hmem => ha (List.mem_cons_of_mem _ hmem)
      have hx' : c ∉ xs := fun hmem => hx (List.mem_cons_of_mem _ hmem)
      obtain ⟨hax, hby⟩ := ih ha' hx' h2
      exact ⟨by rw [h1, hax], hby⟩

theorem colonData : (":" : String).data = [':'] := rfl

theorem constructorKey_data (p f t : String) :
    (helpers.constructorKey p f t).data = (p.data ++ ':' :: f.data) ++ ':' :: t.data := by
  simp [helpers.constructorKey, String.data_append, colonData, List.append_assoc]

theorem colonFree_not_mem {s : String} (h : colonFree s = true) : ':' ∉ s.data := by
  intro hmem
  have := List.all_eq_true.mp h _ hmem
  simp at this

theorem takeWhile_append_stop {p : Char → Bool} :
    ∀ (l1 : List Char) {c : Char} (l2 : List Char),
      (∀ x ∈ l1, p x = true) → p c = false → (l1 ++ c :: l2).takeWhile p = l1 := by
  intro l1
  induction l1 with
  | nil =>
    intro c l2 _ hc
    simp [List.takeWhile_cons, hc]
  | cons a as ih =>
    intro c l2 h hc
    have ha : p a = true := h a (by simp)
    simp [List.takeWhile_cons, ha, ih l2 (fun x hx => h x (by simp [hx])) hc]

theorem keyTypeComponent_constructorKey {p f t : String} (ht : colonFree t = true) :
    keyTypeComponent (helpers.constructorKey p f t) = t := by
  unfold keyTypeComponent
  rw [constructorKey_data]
  rw [List.reverse_append, List.reverse_cons, List.append_assoc]
  have hall : ∀ x ∈ t.data.reverse, (x != ':') = true := by
    intro x hx
    have hx' : x ∈ t.data := List.mem_reverse.mp hx
    have hne : x ≠ ':' := fun hc => colonFree_not_mem ht (hc ▸ hx')
    simpa using hne
  rw [show ([':'] ++ (p.data ++ ':' :: f.data).reverse)
      = ':' :: (p.data ++ ':' :: f.data).reverse from rfl]
  rw [takeWhile_append_stop t.data.reverse _ hall (by simp)]
  simp

theorem constructorKey_endsWith_iff {p f t t' : String} (ht : colonFree t = true)
    (ht' : colonFree t' = true) :
    goEndsWith (helpers.constructorKey p f t') (":" ++ t) = true ↔ t = t' := by
  rw [goEndsWith_iff]
  constructor
  · rintro ⟨pre, hp⟩
    rw [constructorKey_data] at hp
    rw [String.data_append, colonData] at hp
    have hrev := congrArg List.reverse hp
    simp only [List.reverse_append, List.reverse_cons, List.append_assoc,
      List.singleton_append, List.cons_append, List.nil_append] at hrev
    have hcf' : ':' ∉ t'.data.reverse :=
      fun hmem => colonFree_not_mem ht' (List.mem_reverse.mp hmem)
    have hcf : ':' ∉ t.data.reverse :=
      fun hmem => colonFree_not_mem ht (List.mem_reverse.mp hmem)
    obtain ⟨h1, _⟩ := append_cons_inj hcf' hcf hrev
    have hdata : t'.data = t.data := by simpa using congrArg List.reverse h1
    exact String.ext hdata |>.symm
  · rintro rfl
    refine ⟨p.data ++ ':' :: f.data, ?_⟩
    rw [constructorKey_data, String.data_append, colonData]
    simp

theorem constructorKey_inj {p1 f1 t1 p2 f2 t2 : String}
    (hf1 : colonFree f1 = true) (ht1 : colonFree t1 = true)
    (hf2 : colonFree f2 = true) (ht2 : colonFree t2 = true)
    (h : helpers.constructorKey p1 f1 t1 = helpers.constructorKey p2 f2 t2) :
    p1 = p2 ∧ f1 = f2 ∧ t1 = t2 := by
  have hd := congrArg String.data h
  rw [constructorKey_data, constructorKey_data] at hd
  have hrev := congrArg List.reverse hd
  simp only [List.reverse_append, List.reverse_cons, List.append_assoc,
    List.singleton_append, List.cons_append, List.nil_append] at hrev
  obtain ⟨h1, h2⟩ := append_cons_inj
    (fun hmem => colonFree_not_mem ht1 (List.mem_reverse.mp hmem))
    (fun hmem => colonFree_not_mem ht2 (List.mem_reverse.mp hmem)) hrev
  obtain ⟨h3, h4⟩ := append_cons_inj
    (fun hmem => colonFree_not_mem hf1 (List.mem_reverse.mp hmem))
    (fun hmem => colonFree_not_mem hf2 (List.mem_reverse.mp hmem)) h2
  refine ⟨?_, ?_, ?_⟩
  · exact String.ext (by simpa using congrArg List.reverse h4)
  · exact String.ext (by simpa using congrArg List.reverse h3)
  · exact String.ext (by simpa using congrArg List.reverse h1)

/-! ### Phase characterizations -/

theorem typeDeclWalkStep_err (pred : GoFile → GoStructType → Bool) (acc : List String)
    (c : WalkCall) : (helpers.typeDeclWalkStep pred acc c).2 = none := by
  cases c with
  | rootErr m => rfl
  | entryErr p m => rfl
  | entry p parsed =>
    simp only [helpers.typeDeclWalkStep]
    split
    · rfl
    · split
      · rfl
      · cases parsed <;> rfl

theorem constructorWalkStep_err (types : List String) (acc : List (String × ConstructorInfo))
    (c : WalkCall) : (helpers.constructorWalkStep types acc c).2 = none := by
  cases c with
  | rootErr m => rfl
  | entryErr p m => rfl
  | entry p parsed =>
    simp only [helpers.constructorWalkStep]
    split
    · rfl
    · split
      · rfl
      · cases parsed <;> rfl

theorem scanWalkStep_err (m : String) (types : List String)
    (cs : List (String × ConstructorInfo)) (acc : List String) (c : WalkCall) :
    (helpers.scanWalkStep m types cs acc c).2 = none := by
  cases c with
  | rootErr msg => rfl
  | entryErr p msg => rfl
  | entry p parsed =>
    simp only [helpers.scanWalkStep]
    split
    · rfl
    · split
      · rfl
      · cases parsed <;> rfl

theorem FindTypeDeclarations_eq (tree : GoTree) (pred : GoFile → GoStructType → Bool) :
    helpers.FindTypeDeclarations tree pred =
      (some ((walkCalls tree).foldl (fun a c => (helpers.typeDeclWalkStep pred a c).1) []),
        none) := by
  unfold helpers.FindTypeDeclarations
  rw [filepathWalk_no_err _ (fun s c => typeDeclWalkStep_err pred s c)]

theorem FindConstructors_eq (tree : GoTree) (types : List String) :
    helpers.FindConstructors tree types =
      (some ((walkCalls tree).foldl (fun a c => (helpers.constructorWalkStep types a c).1) []),
        none) := by
  unfold helpers.FindConstructors
  rw [filepathWalk_no_err _ (fun s c => constructorWalkStep_err types s c)]

theorem FindZeroValueInitializations_eq (tree : GoTree) (m : String) (types : List String)
    (cs : List (String × ConstructorInfo)) :
    helpers.FindZeroValueInitializations tree m types cs =
      (some ((walkCalls tree).foldl (fun a c => (helpers.scanWalkStep m types cs a c).1) []),
        none) := by
  unfold helpers.FindZeroValueInitializations
  rw [filepathWalk_no_err _ (fun s c => scanWalkStep_err m types cs s c)]

theorem typeDeclVisitStep_eq (pred : GoFile → GoStructType → Bool) (file : GoFile)
    (acc : List String) (v : VisitNode) :
    helpers.typeDeclVisitStep pred file acc v =
      (match typeDeclHit pred file v with
       | some s => insertSet s acc
       | none => acc) := by
  cases v with
  | typeSpec name st =>
    cases st with
    | none => rfl
    | some s =>
      by_cases h : pred file s <;>
        simp [helpers.typeDeclVisitStep, typeDeclHit, h]
  | comp ty elts line => rfl
  | assign rhs => rfl
  | ret rs => rfl
  | funcDecl name results s e => rfl
  | otherVisit => rfl

theorem constructorVisitStep_eq (types : List String) (pkg path : String)
    (acc : List (String × ConstructorInfo)) (v : VisitNode) :
    helpers.constructorVisitStep types pkg path acc v =
      (match constructorHit types pkg path v with
       | some (k, i) => mapSet acc k i
       | none => acc) := by
  cases v with
  | funcDecl name results s e =>
    simp only [helpers.constructorVisitStep, constructorHit]
    by_cases hn : goStartsWith name "New" = false
    · simp [hn]
    · rw [if_neg hn, if_neg hn]
      match results with
      | none => rfl
      | some [] => rfl
      | some (GoTypeExpr.ident n :: rest) =>
        by_cases hmem : (pkg ++ "." ++ n) ∈ types
        · simp only [hmem, if_pos]
        · simp only [hmem, if_neg, if_false]
      | some (GoTypeExpr.selector x sel :: rest) => rfl
      | some (GoTypeExpr.otherType :: rest) => rfl
  | comp ty elts line => rfl
  | assign rhs => rfl
  | ret rs => rfl
  | typeSpec name st => rfl
  | otherVisit => rfl

theorem scanVisitStep_mem (pkg : String) (imps : List GoImport) (m : String)
    (types : List String) (cs : List (String × ConstructorInfo)) (path : String)
    (acc : List String) (v : VisitNode) (s : String) :
    s ∈ helpers.scanVisitStep pkg imps m types cs path acc v ↔
      s ∈ acc ∨ helpers.scanHit pkg imps m types cs path v = some s := by
  unfold helpers.scanVisitStep
  cases hh : helpers.scanHit pkg imps m types cs path v with
  | none => simp
  | some t =>
    simp only [mem_insertSet, Option.some.injEq]
    constructor
    · rintro (rfl | hs)
      · exact Or.inr rfl
      · exact Or.inl hs
    · rintro (hs | rfl)
      · exact Or.inr hs
      · exact Or.inl rfl

theorem typeDeclVisitStep_mem (pred : GoFile → GoStructType → Bool) (file : GoFile)
    (acc : List String) (v : VisitNode) (s : String) :
    s ∈ helpers.typeDeclVisitStep pred file acc v ↔
      s ∈ acc ∨ typeDeclHit pred file v = some s := by
  rw [typeDeclVisitStep_eq]
  cases hh : typeDeclHit pred file v with
  | none => simp
  | some t =>
    simp only [mem_insertSet, Option.some.injEq]
    constructor
    · rintro (rfl | hs)
      · exact Or.inr rfl
      · exact Or.inl hs
    · rintro (hs | rfl)
      · exact Or.inr hs
      · exact Or.inl rfl

theorem scanWalkStep_mem (m : String) (types : List String)
    (cs : List (String × ConstructorInfo)) (acc : List String) (c : WalkCall) (s : String) :
    s ∈ (helpers.scanWalkStep m types cs acc c).1 ↔
      s ∈ acc ∨ ∃ path f, c = WalkCall.entry path (some f) ∧ filepathExt path = ".go" ∧
        goEndsWith path "_test.go" = false ∧
        ∃ v ∈ fileVisits f, helpers.scanHit f.pkgName f.imports m types cs path v = some s := by
  cases c with
  | rootErr msg => simp [helpers.scanWalkStep]
  | entryErr p msg => simp [helpers.scanWalkStep]
  | entry p parsed =>
    simp only [helpers.scanWalkStep]
    by_cases hext : filepathExt p = ".go"
    · rw [if_neg (by simpa using hext)]
      by_cases htest : goEndsWith p "_test.go"
      · rw [if_pos htest]
        constructor
        · exact fun hs => Or.inl hs
        · rintro (hs | ⟨x, f, heq, h1, h2, -⟩)
          · exact hs
          · injection heq with hpx hpar
            subst hpx
            simp [htest] at h2
      · rw [if_neg htest]
        cases parsed with
        | none => simp [hext, htest]
        | some file =>
          simp only
          rw [foldl_union_mem
            (helpers.scanVisitStep file.pkgName file.imports m types cs p)
            (fun v s' => helpers.scanHit file.pkgName file.imports m types cs p v = some s')
            (fun a v s' => scanVisitStep_mem file.pkgName file.imports m types cs p a v s')]
          simp only [WalkCall.entry.injEq, Option.some.injEq]
          constructor
          · rintro (hs | hv)
            · exact Or.inl hs
            · exact Or.inr ⟨p, file, ⟨rfl, rfl⟩, hext,
                Bool.eq_false_iff.mpr (by simpa using htest), hv⟩
          · rintro (hs | ⟨path', f', ⟨hp, hf⟩, _, _, hv⟩)
            · exact Or.inl hs
            · subst hp
              subst hf
              exact Or.inr hv
    · rw [if_pos (by simpa using hext)]
      constructor
      · exact fun hs => Or.inl hs
      · rintro (hs | ⟨x, f, heq, h1, h2, -⟩)
        · exact hs
        · injection heq with hpx hpar
          subst hpx
          exact absurd h1 hext

theorem typeDeclWalkStep_mem (pred : GoFile → GoStructType → Bool) (acc : List String)
    (c : WalkCall) (s : String) :
    s ∈ (helpers.typeDeclWalkStep pred acc c).1 ↔
      s ∈ acc ∨ ∃ path f, c = WalkCall.entry path (some f) ∧ filepathExt path = ".go" ∧
        goEndsWith path "_test.go" = false ∧
        ∃ v ∈ fileVisits f, typeDeclHit pred f v = some s := by
  cases c with
  | rootErr msg => simp [helpers.typeDeclWalkStep]
  | entryErr p msg => simp [helpers.typeDeclWalkStep]
  | entry p parsed =>
    simp only [helpers.typeDeclWalkStep]
    by_cases hext : filepathExt p = ".go"
    · rw [if_neg (by simpa using hext)]
      by_cases htest : goEndsWith p "_test.go"
      · rw [if_pos htest]
        constructor
        · exact fun hs => Or.inl hs
        · rintro (hs | ⟨x, f, heq, h1, h2, -⟩)
          · exact hs
          · injection heq with hpx hpar
            subst hpx
            simp [htest] at h2
      · rw [if_neg htest]
        cases parsed with
        | none => simp [hext, htest]
        | some file =>
          simp only
          rw [foldl_union_mem (helpers.typeDeclVisitStep pred file)
            (fun v s' => typeDeclHit pred file v = some s')
            (fun a v s' => typeDeclVisitStep_mem pred file a v s')]
          simp only [WalkCall.entry.injEq, Option.some.injEq]
          constructor
          · rintro (hs | hv)
            · exact Or.inl hs
            · exact Or.inr ⟨p, file, ⟨rfl, rfl⟩, hext,
                Bool.eq_false_iff.mpr (by simpa using htest), hv⟩
          · rintro (hs | ⟨path', f', ⟨hp, hf⟩, _, _, hv⟩)
            · exact Or.inl hs
            · subst hp
              subst hf
              exact Or.inr hv
    · rw [if_pos (by simpa using hext)]
      constructor
      · exact fun hs => Or.inl hs
      · rintro (hs | ⟨x, f, heq, h1, h2, -⟩)
        · exact hs
        · injection heq with hpx hpar
          subst hpx
          exact absurd h1 hext

theorem scan_mem_iff (tree : GoTree) (m : String) (types : List String)
    (cs : List (String × ConstructorInfo)) (s : String) :
    s ∈ ((helpers.FindZeroValueInitializations tree m types cs).1.getD []) ↔
      ∃ path f, processedEntry tree path f ∧
        ∃ v ∈ fileVisits f,
          helpers.scanHit f.pkgName f.imports m types cs path v = some s := by
  rw [FindZeroValueInitializations_eq]
  simp only [Option.getD_some]
  rw [foldl_union_mem (fun a c => (helpers.scanWalkStep m types cs a c).1)
    (fun c s' => ∃ path f, c = WalkCall.entry path (some f) ∧ filepathExt path = ".go" ∧
      goEndsWith path "_test.go" = false ∧
      ∃ v ∈ fileVisits f, helpers.scanHit f.pkgName f.imports m types cs path v = some s')
    (fun a c s' => scanWalkStep_mem m types cs a c s')]
  simp only [List.not_mem_nil, false_or]
  unfold walkCalls
  cases hre : tree.rootError with
  | some msg =>
    constructor
    · rintro ⟨c, hc, path, f, heq, -⟩
      rw [List.mem_singleton] at hc
      subst hc
      cases heq
    · rintro ⟨path, f, ⟨hnone, -⟩, -⟩
      rw [hre] at hnone
      cases hnone
  | none =>
    constructor
    · rintro ⟨c, hc, path, f, rfl, h1, h2, hv⟩
      exact ⟨path, f, ⟨hre, hc, h1, h2⟩, hv⟩
    · rintro ⟨path, f, ⟨-, hc, h1, h2⟩, hv⟩
      exact ⟨_, hc, path, f, rfl, h1, h2, hv⟩

theorem typeDecl_mem_iff (tree : GoTree) (pred : GoFile → GoStructType → Bool) (s : String) :
    s ∈ ((helpers.FindTypeDeclarations tree pred).1.getD []) ↔
      ∃ path f, processedEntry tree path f ∧
        ∃ v ∈ fileVisits f, typeDeclHit pred f v = some s := by
  rw [FindTypeDeclarations_eq]
  simp only [Option.getD_some]
  rw [foldl_union_mem (fun a c => (helpers.typeDeclWalkStep pred a c).1)
    (fun c s' => ∃ path f, c = WalkCall.entry path (some f) ∧ filepathExt path = ".go" ∧
      goEndsWith path "_test.go" = false ∧
      ∃ v ∈ fileVisits f, typeDeclHit pred f v = some s')
    (fun a c s' => typeDeclWalkStep_mem pred a c s')]
  simp only [List.not_mem_nil, false_or]
  unfold walkCalls
  cases hre : tree.rootError with
  | some msg =>
    constructor
    · rintro ⟨c, hc, path, f, heq, -⟩
      rw [List.mem_singleton] at hc
      subst hc
      cases heq
    · rintro ⟨path, f, ⟨hnone, -⟩, -⟩
      rw [hre] at hnone
      cases hnone
  | none =>
    constructor
    · rintro ⟨c, hc, path, f, rfl, h1, h2, hv⟩
      exact ⟨path, f, ⟨hre, hc, h1, h2⟩, hv⟩
    · rintro ⟨path, f, ⟨-, hc, h1, h2⟩, hv⟩
      exact ⟨_, hc, path, f, rfl, h1, h2, hv⟩

theorem constructorVisitStep_mem_src {types : List String} {pkg path : String}
    {acc : List (String × ConstructorInfo)} {w : VisitNode} {k : String}
    {v : ConstructorInfo}
    (h : (k, v) ∈ helpers.constructorVisitStep types pkg path acc w) :
    (k, v) ∈ acc ∨ constructorHit types pkg path w = some (k, v) := by
  rw [constructorVisitStep_eq] at h
  cases hh : constructorHit types pkg path w with
  | none => rw [hh] at h; exact Or.inl h
  | some kv =>
    rw [hh] at h
    rcases kv with ⟨k0, i0⟩
    rcases mapSet_mem_src h with ⟨rfl, rfl⟩ | ⟨hmem, -⟩
    · exact Or.inr rfl
    · exact Or.inl hmem

theorem constructorVisitStep_key_pres {types : List String} {pkg path : String}
    {acc : List (String × ConstructorInfo)} {k : String} (w : VisitNode)
    (h : ∃ v, (k, v) ∈ acc) :
    ∃ v', (k, v') ∈ helpers.constructorVisitStep types pkg path acc w := by
  rw [constructorVisitStep_eq]
  cases hh : constructorHit types pkg path w with
  | none => exact h
  | some kv => exact mapSet_key_pres kv.1 kv.2 h

theorem constructorVisitStep_key_add {types : List String} {pkg path : String}
    {acc : List (String × ConstructorInfo)} {k : String} {v : ConstructorInfo}
    {w : VisitNode} (h : constructorHit types pkg path w = some (k, v)) :
    ∃ v', (k, v') ∈ helpers.constructorVisitStep types pkg path acc w := by
  rw [constructorVisitStep_eq, h]
  exact ⟨v, mapSet_self_mem acc k v⟩

theorem constructorWalkStep_mem_src (types : List String)
    (acc : List (String × ConstructorInfo)) (c : WalkCall) (k : String)
    (v : ConstructorInfo)
    (h : (k, v) ∈ (helpers.constructorWalkStep types acc c).1) :
    (k, v) ∈ acc ∨ ∃ path f, c = WalkCall.entry path (some f) ∧
      filepathExt path = ".go" ∧ goEndsWith path "_test.go" = false ∧
      ∃ w ∈ fileVisits f, constructorHit types f.pkgName path w = some (k, v) := by
  cases c with
  | rootErr msg => exact Or.inl h
  | entryErr p msg => exact Or.inl h
  | entry p parsed =>
    simp only [helpers.constructorWalkStep] at h
    by_cases hext : filepathExt p = ".go"
    · rw [if_neg (by simpa using hext)] at h
      by_cases htest : goEndsWith p "_test.go"
      · rw [if_pos htest] at h
        exact Or.inl h
      · rw [if_neg htest] at h
        cases parsed with
        | none => exact Or.inl h
        | some file =>
          simp only at h
          rcases foldl_mapSet_origin (helpers.constructorVisitStep types file.pkgName p)
            (fun w kv => constructorHit types file.pkgName p w = some kv)
            (fun a w k' v' h' => constructorVisitStep_mem_src h')
            (fileVisits file) acc k v h with hacc | ⟨w, hw, hhit⟩
          · exact Or.inl hacc
          · exact Or.inr ⟨p, file, rfl, hext,
              Bool.eq_false_iff.mpr (by simpa using htest), w, hw, hhit⟩
    · rw [if_pos (by simpa using hext)] at h
      exact Or.inl h

theorem constructorWalkStep_key_pres (types : List String)
    (acc : List (String × ConstructorInfo)) (c : WalkCall) (k : String)
    (h : ∃ v, (k, v) ∈ acc) :
    ∃ v', (k, v') ∈ (helpers.constructorWalkStep types acc c).1 := by
  cases c with
  | rootErr msg => exact h
  | entryErr p msg => exact h
  | entry p parsed =>
    simp only [helpers.constructorWalkStep]
    split
    · exact h
    · split
      · exact h
      · cases parsed with
        | none => exact h
        | some file =>
          exact foldl_mapSet_keysurvive (helpers.constructorVisitStep types file.pkgName p)
            (fun w kv => constructorHit types file.pkgName p w = some kv)
            (fun a w k' h' => constructorVisitStep_key_pres w h')
            (fun a w k' v' h' => constructorVisitStep_key_add h')
            (fileVisits file) acc k (Or.inl h)

theorem constructorWalkStep_key_add (types : List String)
    (acc : List (String × ConstructorInfo)) (c : WalkCall) (k : String)
    (v : ConstructorInfo)
    (hW : ∃ path f, c = WalkCall.entry path (some f) ∧ filepathExt path = ".go" ∧
      goEndsWith path "_test.go" = false ∧
      ∃ w ∈ fileVisits f, constructorHit types f.pkgName path w = some (k, v)) :
    ∃ v', (k, v') ∈ (helpers.constructorWalkStep types acc c).1 := by
  obtain ⟨path, f, rfl, hext, htest, w, hw, hhit⟩ := hW
  simp only [helpers.constructorWalkStep]
  rw [if_neg (by simpa using hext), if_neg (by simp [htest])]
  exact foldl_mapSet_keysurvive (helpers.constructorVisitStep types f.pkgName path)
    (fun w' kv => constructorHit types f.pkgName path w' = some kv)
    (fun a w' k' h' => constructorVisitStep_key_pres w' h')
    (fun a w' k' v' h' => constructorVisitStep_key_add h')
    (fileVisits f) acc k (Or.inr ⟨w, hw, v, hhit⟩)

theorem constructors_origin (tree : GoTree) (types : List String) (k : String)
    (v : ConstructorInfo)
    (h : (k, v) ∈ ((helpers.FindConstructors tree types).1.getD [])) :
    ∃ path f, processedEntry tree path f ∧
      ∃ w ∈ fileVisits f, constructorHit types f.pkgName path w = some (k, v) := by
  rw [FindConstructors_eq] at h
  simp only [Option.getD_some] at h
  rcases foldl_mapSet_origin (fun a c => (helpers.constructorWalkStep types a c).1)
    (fun c kv => ∃ path f, c = WalkCall.entry path (some f) ∧ filepathExt path = ".go" ∧
      goEndsWith path "_test.go" = false ∧
      ∃ w ∈ fileVisits f, constructorHit types f.pkgName path w = some kv)
    (fun a c k' v' h' => constructorWalkStep_mem_src types a c k' v' h')
    (walkCalls tree) [] k v h with hnil | ⟨c, hc, path, f, rfl, h1, h2, w, hw, hhit⟩
  · cases hnil
  · unfold walkCalls at hc
    cases hre : tree.rootError with
    | some msg =>
      rw [hre] at hc
      rw [List.mem_singleton] at hc
      cases hc
    | none =>
      rw [hre] at hc
      exact ⟨path, f, ⟨hre, hc, h1, h2⟩, w, hw, hhit⟩

theorem constructors_key_mem (tree : GoTree) (types : List String) (k : String)
    (v : ConstructorInfo)
    (hW : ∃ path f, processedEntry tree path f ∧
      ∃ w ∈ fileVisits f, constructorHit types f.pkgName path w = some (k, v)) :
    ∃ v', (k, v') ∈ ((helpers.FindConstructors tree types).1.getD []) := by
  rw [FindConstructors_eq]
  simp only [Option.getD_some]
  obtain ⟨path, f, ⟨hre, hc, h1, h2⟩, w, hw, hhit⟩ := hW
  refine foldl_mapSet_keysurvive (fun a c => (helpers.constructorWalkStep types a c).1)
    (fun c kv => ∃ path' f', c = WalkCall.entry path' (some f') ∧
      filepathExt path' = ".go" ∧ goEndsWith path' "_test.go" = false ∧
      ∃ w' ∈ fileVisits f', constructorHit types f'.pkgName path' w' = some kv)
    (fun a c k' h' => constructorWalkStep_key_pres types a c k' h')
    (fun a c k' v' h' => constructorWalkStep_key_add types a c k' v' h')
    (walkCalls tree) [] k (Or.inr ?_)
  refine ⟨WalkCall.entry path (some f), ?_, v, path, f, rfl, h1, h2, w, hw, hhit⟩
  unfold walkCalls
  rw [hre]
  exact hc

theorem constructorHit_shape {types : List String} {pkg path : String} {w : VisitNode}
    {k : String} {v : ConstructorInfo}
    (h : constructorHit types pkg path w = some (k, v)) :
    ∃ fname n rest startLine endLine,
      w = VisitNode.funcDecl fname (some (GoTypeExpr.ident n :: rest)) startLine endLine ∧
      goStartsWith fname "New" = true ∧ (pkg ++ "." ++ n) ∈ types ∧
      k = helpers.constructorKey path fname (pkg ++ "." ++ n) ∧
      v = { File := path, StartLine := startLine, EndLine := endLine } := by
  cases w with
  | funcDecl fname results s e =>
    simp only [constructorHit] at h
    by_cases hn : goStartsWith fname "New" = false
    · rw [if_pos hn] at h
      cases h
    · rw [if_neg hn] at h
      match results with
      | none => cases h
      | some [] => cases h
      | some (GoTypeExpr.ident n :: rest) =>
        simp only at h
        by_cases hmem : (pkg ++ "." ++ n) ∈ types
        · rw [if_pos hmem] at h
          injection h with h'
          injection h' with hk hv
          exact ⟨fname, n, rest, s, e, rfl, eq_true_of_ne_false hn, hmem,
            hk.symm, hv.symm⟩
        · rw [if_neg hmem] at h
          cases h
      | some (GoTypeExpr.selector x sel :: rest) => cases h
      | some (GoTypeExpr.otherType :: rest) => cases h
  | comp ty elts line => cases h
  | assign rhs => cases h
  | ret rs => cases h
  | typeSpec name st => cases h
  | otherVisit => cases h

theorem colonFree_append {a b : String} (ha : colonFree a = true)
    (hb : colonFree b = true) : colonFree (a ++ b) = true := by
  unfold colonFree at *
  rw [String.data_append, List.all_append, Bool.and_eq_true]
  exact ⟨ha, hb⟩

theorem keys_wellformed {tree : GoTree} {types : List String}
    (hwf : constructorIdentsColonFree tree = true) :
    ∀ kc ∈ ((helpers.FindConstructors tree types).1.getD []),
      ∃ p f t', kc.1 = helpers.constructorKey p f t' ∧ colonFree f = true ∧
        colonFree t' = true ∧ kc.2.File = p := by
  rintro ⟨k, v⟩ hkc
  obtain ⟨path, f, hproc, w, hw, hhit⟩ := constructors_origin tree types k v hkc
  obtain ⟨fname, n, rest, s, e, rfl, hnew, hmem, hk, hv⟩ := constructorHit_shape hhit
  have hf := List.all_eq_true.mp hwf _ hproc.2.1
  rw [Bool.and_eq_true] at hf
  obtain ⟨hpkg, hvisits⟩ := hf
  have hv' := List.all_eq_true.mp hvisits _ hw
  rw [Bool.and_eq_true] at hv'
  obtain ⟨hfn, hn⟩ := hv'
  refine ⟨path, fname, f.pkgName ++ "." ++ n, hk, hfn, ?_, by rw [hv]⟩
  exact colonFree_append (colonFree_append hpkg (by decide)) hn

theorem isInside_iff_record (path : String) (line : Nat) {t : String}
    {cs : List (String × ConstructorInfo)}
    (hkeys : ∀ kc ∈ cs, ∃ p f t', kc.1 = helpers.constructorKey p f t' ∧
      colonFree f = true ∧ colonFree t' = true ∧ kc.2.File = p)
    (ht : colonFree t = true) :
    helpers.IsInsideConstructor path line t cs = true ↔
      ∃ kc ∈ cs, keyTypeComponent kc.1 = t ∧ kc.2.File = path ∧
        kc.2.StartLine ≤ line ∧ line ≤ kc.2.EndLine := by
  unfold helpers.IsInsideConstructor
  rw [List.any_eq_true]
  constructor
  · rintro ⟨kc, hmem, hpred⟩
    obtain ⟨p, f, t', hkey, -, ht', -⟩ := hkeys kc hmem
    simp only [Bool.and_eq_true, beq_iff_eq, decide_eq_true_eq] at hpred
    obtain ⟨⟨⟨hends, hfile⟩, hstart⟩, hend⟩ := hpred
    have htt' : t = t' := by
      rw [hkey] at hends
      exact (constructorKey_endsWith_iff ht ht').mp hends
    refine ⟨kc, hmem, ?_, hfile, hstart, hend⟩
    rw [hkey, keyTypeComponent_constructorKey ht', ← htt']
  · rintro ⟨kc, hmem, hcomp, hfile, hstart, hend⟩
    obtain ⟨p, f, t', hkey, -, ht', -⟩ := hkeys kc hmem
    have htt' : t = t' := by
      rw [hkey, keyTypeComponent_constructorKey ht'] at hcomp
      exact hcomp.symm
    refine ⟨kc, hmem, ?_⟩
    simp only [Bool.and_eq_true, beq_iff_eq, decide_eq_true_eq]
    refine ⟨⟨⟨?_, hfile⟩, hstart⟩, hend⟩
    rw [hkey]
    exact (constructorKey_endsWith_iff ht ht').mpr htt'

theorem scanHit_some_inv {pkg : String} {imps : List GoImport} {m : String}
    {types : List String} {cs : List (String × ConstructorInfo)} {path : String}
    {v : VisitNode} {s : String}
    (h : helpers.scanHit pkg imps m types cs path v = some s) :
    ∃ ty elts line t, helpers.visitCompLit v = some (ty, elts, line) ∧
      elts.length = 0 ∧ helpers.resolveTypeKey pkg imps ty = some t ∧ t ∈ types ∧
      helpers.IsInsideConstructor path line t cs = false ∧
      s = helpers.violationString m t path line := by
  unfold helpers.scanHit at h
  split at h
  · cases h
  · next ty elts line hc =>
    split at h
    · cases h
    · next hlen =>
      split at h
      · cases h
      · next t hres =>
        split at h
        · cases h
        · next hmem =>
          split at h
          · cases h
          · next hin =>
            injection h with hs
            exact ⟨ty, elts, line, t, hc, by omega, hres, not_not.mp hmem,
              Bool.eq_false_iff.mpr (by simpa using hin), hs.symm⟩

theorem scanHit_eq_decision {pkg : String} {imps : List GoImport}
    {types : List String} {v : VisitNode} {ty : GoTypeExpr} {elts : GoExprList}
    {line : Nat} {t : String} (m path : String)
    (cs : List (String × ConstructorInfo))
    (hcand : helpers.visitCompLit v = some (ty, elts, line))
    (hempty : elts.length = 0)
    (hres : helpers.resolveTypeKey pkg imps ty = some t)
    (hmark : t ∈ types) :
    helpers.scanHit pkg imps m types cs path v =
      (if helpers.IsInsideConstructor path line t cs then none
       else some (helpers.violationString m t path line)) := by
  unfold helpers.scanHit
  rw [hcand]
  have h1 : ¬(elts.length ≠ 0) := by omega
  simp only [h1, if_false, hres, hmark, not_true_eq_false, ite_false]

theorem scan_nodup (tree : GoTree) (m : String) (types : List String)
    (cs : List (String × ConstructorInfo)) :
    ((helpers.FindZeroValueInitializations tree m types cs).1.getD []).Nodup := by
  rw [FindZeroValueInitializations_eq]
  simp only [Option.getD_some]
  refine foldl_nodup_pres _ ?_ (walkCalls tree) [] List.nodup_nil
  intro acc c hacc
  cases c with
  | rootErr msg => exact hacc
  | entryErr p msg => exact hacc
  | entry p parsed =>
    simp only [helpers.scanWalkStep]
    split
    · exact hacc
    · split
      · exact hacc
      · cases parsed with
        | none => exact hacc
        | some file =>
          refine foldl_nodup_pres _ ?_ (fileVisits file) acc hacc
          intro a v ha
          unfold helpers.scanVisitStep
          cases helpers.scanHit file.pkgName file.imports m types cs p v with
          | none => exact ha
          | some s => exact nodup_insertSet ha

/-! ### Visits of nested literals -/

theorem mem_concatMap {α β : Type} {g : α → List β} :
    ∀ {l : List α} {b : β}, b ∈ concatMap g l ↔ ∃ a ∈ l, b ∈ g a := by
  intro l
  induction l with
  | nil => simp [concatMap]
  | cons a as ih =>
    intro b
    simp only [concatMap, List.mem_append, ih, List.mem_cons]
    constructor
    · rintro (hb | ⟨a', ha', hb⟩)
      · exact ⟨a, Or.inl rfl, hb⟩
      · exact ⟨a', Or.inr ha', hb⟩
    · rintro ⟨a', (rfl | ha'), hb⟩
      · exact Or.inl hb
      · exact Or.inr ⟨a', ha', hb⟩

theorem memE_visits {e : GoExpr} {es : GoExprList} (h : MemE e es) :
    ∀ v ∈ exprVisits e, v ∈ exprListVisits es := by
  induction h with
  | head es =>
    intro v hv
    simp only [exprListVisits, List.mem_append]
    exact Or.inl hv
  | tail h' es hmem ih =>
    intro v hv
    simp only [exprListVisits, List.mem_append]
    exact Or.inr (ih v hv)

theorem litInExpr_visits {l e : GoExpr} (h : LitInExpr l e) :
    ∀ v ∈ exprVisits l, v ∈ exprVisits e := by
  induction h with
  | self => exact fun v hv => hv
  | inElts hmem hin ih =>
    intro v hv
    simp only [exprVisits]
    exact List.mem_cons_of_mem _ (memE_visits hmem v (ih v hv))
  | inChildren hmem hin ih =>
    intro v hv
    simp only [exprVisits]
    exact List.mem_cons_of_mem _ (memE_visits hmem v (ih v hv))

theorem memS_visits {s : GoStmt} {ss : GoStmtList} (h : MemS s ss) :
    ∀ v ∈ stmtVisits s, v ∈ stmtListVisits ss := by
  induction h with
  | head ss =>
    intro v hv
    simp only [stmtListVisits, List.mem_append]
    exact Or.inl hv
  | tail h' ss hmem ih =>
    intro v hv
    simp only [stmtListVisits, List.mem_append]
    exact Or.inr (ih v hv)

theorem litInStmt_visits {l : GoExpr} {s : GoStmt} (h : LitInStmt l s) :
    ∀ v ∈ exprVisits l, v ∈ stmtVisits s := by
  induction h with
  | inAssignLhs hmem hin =>
    intro v hv
    simp only [stmtVisits, List.mem_cons, List.mem_append]
    exact Or.inr (Or.inl (memE_visits hmem v (litInExpr_visits hin v hv)))
  | inAssignRhs hmem hin =>
    intro v hv
    simp only [stmtVisits, List.mem_cons, List.mem_append]
    exact Or.inr (Or.inr (memE_visits hmem v (litInExpr_visits hin v hv)))
  | inRet hmem hin =>
    intro v hv
    simp only [stmtVisits, List.mem_cons]
    exact Or.inr (memE_visits hmem v (litInExpr_visits hin v hv))
  | inExprStmt hin =>
    intro v hv
    simp only [stmtVisits, List.mem_cons]
    exact Or.inr (litInExpr_visits hin v hv)
  | inSeqStmt hmem hin ih =>
    intro v hv
    simp only [stmtVisits, List.mem_cons, List.mem_append]
    exact Or.inr (Or.inl (memS_visits hmem v (ih v hv)))
  | inSeqExpr hmem hin =>
    intro v hv
    simp only [stmtVisits, List.mem_cons, List.mem_append]
    exact Or.inr (Or.inr (memE_visits hmem v (litInExpr_visits hin v hv)))

theorem litInDecl_visits {l : GoExpr} {d : GoDecl} (h : LitInDecl l d) :
    ∀ v ∈ exprVisits l, v ∈ declVisits d := by
  cases h with
  | inVar hmem hin =>
    intro v hv
    simp only [declVisits, List.mem_cons]
    exact Or.inr (memE_visits hmem v (litInExpr_visits hin v hv))
  | inBody hmem hin =>
    intro v hv
    simp only [declVisits, List.mem_cons]
    exact Or.inr (memS_visits hmem v (litInStmt_visits hin v hv))

theorem litInFile_visits {l : GoExpr} {f : GoFile} (h : LitInFile l f) :
    ∀ v ∈ exprVisits l, v ∈ fileVisits f := by
  obtain ⟨d, hd, hin⟩ := h
  intro v hv
  unfold fileVisits
  exact mem_concatMap.mpr ⟨d, hd, litInDecl_visits hin v hv⟩

/-! ### Test files are skipped -/

theorem typeDeclWalkStep_test_skip (pred : GoFile → GoStructType → Bool)
    (acc : List String) (path : String) (parsed : Option GoFile)
    (h : goEndsWith path "_test.go" = true) :
    helpers.typeDeclWalkStep pred acc (.entry path parsed) = (acc, none) := by
  simp only [helpers.typeDeclWalkStep]
  by_cases hext : filepathExt path ≠ ".go"
  · rw [if_pos hext]
  · rw [if_neg hext, if_pos h]

theorem constructorWalkStep_test_skip (types : List String)
    (acc : List (String × ConstructorInfo)) (path : String) (parsed : Option GoFile)
    (h : goEndsWith path "_test.go" = true) :
    helpers.constructorWalkStep types acc (.entry path parsed) = (acc, none) := by
  simp only [helpers.constructorWalkStep]
  by_cases hext : filepathExt path ≠ ".go"
  · rw [if_pos hext]
  · rw [if_neg hext, if_pos h]

theorem scanWalkStep_test_skip (m : String) (types : List String)
    (cs : List (String × ConstructorInfo)) (acc : List String) (path : String)
    (parsed : Option GoFile) (h : goEndsWith path "_test.go" = true) :
    helpers.scanWalkStep m types cs acc (.entry path parsed) = (acc, none) := by
  simp only [helpers.scanWalkStep]
  by_cases hext : filepathExt path ≠ ".go"
  · rw [if_pos hext]
  · rw [if_neg hext, if_pos h]

theorem foldl_skip_middle {σ : Type} (step : σ → WalkCall → σ) (e : WalkCall)
    (hid : ∀ a, step a e = a) (l1 l2 : List WalkCall) (init : σ) :
    (l1 ++ e :: l2).foldl step init = (l1 ++ l2).foldl step init := by
  rw [List.foldl_append, List.foldl_append, List.foldl_cons, hid]

/-! ### A normal form for the wrappers -/

theorem ValidateSomeObjects_eq (pred : GoFile → GoStructType → Bool) (dn : String)
    (tree : GoTree) :
    ValidateSomeObjects pred dn tree =
      (if ((helpers.FindTypeDeclarations tree pred).1.getD []).length = 0 then (none, none)
       else
        (some { Types := (helpers.FindTypeDeclarations tree pred).1.getD []
                Constructors := (helpers.FindConstructors tree
                  ((helpers.FindTypeDeclarations tree pred).1.getD [])).1.getD []
                Violations := (helpers.FindZeroValueInitializations tree dn
                  ((helpers.FindTypeDeclarations tree pred).1.getD [])
                  ((helpers.FindConstructors tree
                    ((helpers.FindTypeDeclarations tree pred).1.getD [])).1.getD [])).1.getD [] },
          none)) := by
  unfold ValidateSomeObjects
  rw [FindTypeDeclarations_eq]
  simp only [Option.getD_some]
  split <;>
    first
      | rfl
      | (rw [FindConstructors_eq]
         try simp only [Option.getD_some]
         try rw [FindZeroValueInitializations_eq]
         try simp only [Option.getD_some])

/-! ### Marker detection characterization -/

theorem isSomeObject_iff (file : GoFile) (st : GoStructType)
    (fullPackage markerField declaredName : String) :
    helpers.IsSomeObjectTypeDeclaration file st fullPackage markerField declaredName = true ↔
      ∃ fields, st.fields = some fields ∧
        helpers.GetPackageAlias file.imports fullPackage ≠ "" ∧
        ∃ fd ∈ fields, fd.names = [markerField] ∧
          fd.ftype = GoTypeExpr.selector
            (some (helpers.GetPackageAlias file.imports fullPackage)) declaredName := by
  unfold helpers.IsSomeObjectTypeDeclaration
  cases hf : st.fields with
  | none => simp [hf]
  | some fields =>
    simp only
    by_cases ha : helpers.GetPackageAlias file.imports fullPackage = ""
    · rw [if_pos ha]
      simp [hf, ha]
    · rw [if_neg ha]
      rw [List.any_eq_true]
      have hmatch : ∀ fd : GoField,
          ((match fd.names, fd.ftype with
            | [n], GoTypeExpr.selector (some x) sel =>
              n == markerField && x == helpers.GetPackageAlias file.imports fullPackage &&
                sel == declaredName
            | _, _ => false) = true) ↔
            (fd.names = [markerField] ∧ fd.ftype = GoTypeExpr.selector
              (some (helpers.GetPackageAlias file.imports fullPackage)) declaredName) := by
        rintro ⟨names, ftype⟩
        rcases names with _ | ⟨n, rest⟩
        · simp
        rcases rest with _ | ⟨n2, rest2⟩
        · rcases ftype with nm | ⟨x, sel⟩ | _
          · simp
          · rcases x with _ | a
            · simp
            · simp [Bool.and_eq_true, beq_iff_eq, and_assoc]
          · simp
        · simp
      constructor
      · rintro ⟨fd, hfd, hmp⟩
        obtain ⟨h1, h2⟩ := (hmatch fd).mp hmp
        exact ⟨fields, rfl, ha, fd, hfd, h1, h2⟩
      · rintro ⟨fields', hf', ha', fd, hfd, h1, h2⟩
        injection hf' with hf''
        subst hf''
        exact ⟨fd, hfd, (hmatch fd).mpr ⟨h1, h2⟩⟩

theorem typeDeclHit_some_iff (pred : GoFile → GoStructType → Bool) (file : GoFile)
    (v : VisitNode) (k : String) :
    typeDeclHit pred file v = some k ↔
      ∃ name st, v = VisitNode.typeSpec name (some st) ∧ pred file st = true ∧
        k = file.pkgName ++ "." ++ name := by
  cases v with
  | typeSpec name st =>
    cases st with
    | none => simp [typeDeclHit]
    | some s =>
      simp only [typeDeclHit]
      by_cases h : pred file s
      · rw [if_pos h]
        constructor
        · rintro heq
          injection heq with heq'
          exact ⟨name, s, rfl, h, heq'.symm⟩
        · rintro ⟨n', st', heq, hp, hk⟩
          injection heq with h1 h2
          injection h2 with h2'
          subst h1
          subst h2'
          exact congrArg some hk.symm
      · rw [if_neg h]
        constructor
        · rintro heq
          cases heq
        · rintro ⟨n', st', heq, hp, hk⟩
          injection heq with h1 h2
          injection h2 with h2'
          subst h2'
          exact absurd hp h
  | comp ty elts line => simp [typeDeclHit]
  | assign rhs => simp [typeDeclHit]
  | ret rs => simp [typeDeclHit]
  | funcDecl name results s e => simp [typeDeclHit]
  | otherVisit => simp [typeDeclHit]

theorem constructorHit_of_decl (types : List String) (pkg path fname n : String)
    (rest : List GoTypeExpr) (startLine endLine : Nat)
    (hnew : goStartsWith fname "New" = true) (hmem : (pkg ++ "." ++ n) ∈ types) :
    constructorHit types pkg path
        (VisitNode.funcDecl fname (some (GoTypeExpr.ident n :: rest)) startLine endLine)
      = some (helpers.constructorKey path fname (pkg ++ "." ++ n),
          { File := path, StartLine := startLine, EndLine := endLine }) := by
  simp only [constructorHit]
  rw [if_neg (by simp [hnew])]
  rw [if_pos hmem]

/-! ## Claim theorems -/

/-- C2, amended: a Type Declaration Record `k` is produced iff some processed
file contains a struct type spec whose field list has a field entry declaring
exactly one name, that name being exactly the marker field name, whose
declared type is the selector `<alias>.<markerTypeName>` for the alias the
file's import table resolves for the marker's declaring package (explicit
alias, or the import path's final segment when unaliased, as computed by
`GetPackageAlias`); a file that does not import the marker's declaring package
resolves to the empty alias and contributes no record. -/
theorem C2_record_iff_marker_field_entry (tree : GoTree)
    (fullPackage markerField declaredName k : String) :
    k ∈ ((helpers.FindTypeDeclarations tree (fun file st =>
        helpers.IsSomeObjectTypeDeclaration file st fullPackage markerField
          declaredName)).1.getD []) ↔
      ∃ path f name fields, processedEntry tree path f ∧
        VisitNode.typeSpec name (some ⟨some fields⟩) ∈ fileVisits f ∧
        helpers.GetPackageAlias f.imports fullPackage ≠ "" ∧
        (∃ fd ∈ fields, fd.names = [markerField] ∧
          fd.ftype = GoTypeExpr.selector
            (some (helpers.GetPackageAlias f.imports fullPackage)) declaredName) ∧
        k = f.pkgName ++ "." ++ name := by
  rw [typeDecl_mem_iff]
  constructor
  · rintro ⟨path, f, hproc, v, hv, hhit⟩
    rw [typeDeclHit_some_iff] at hhit
    obtain ⟨name, st, rfl, hpred, hk⟩ := hhit
    have hpred' : helpers.IsSomeObjectTypeDeclaration f st fullPackage markerField
        declaredName = true := hpred
    obtain ⟨fields, hfst, halias, fd, hfd, h1, h2⟩ :=
      (isSomeObject_iff f st fullPackage markerField declaredName).mp hpred'
    have hst : st = ⟨some fields⟩ := by rw [← hfst]
    rw [hst] at hv
    exact ⟨path, f, name, fields, hproc, hv, halias, ⟨fd, hfd, h1, h2⟩, hk⟩
  · rintro ⟨path, f, name, fields, hproc, hv, halias, ⟨fd, hfd, h1, h2⟩, hk⟩
    refine ⟨path, f, hproc, _, hv, ?_⟩
    rw [typeDeclHit_some_iff]
    refine ⟨name, ⟨some fields⟩, rfl, ?_, hk⟩
    show helpers.IsSomeObjectTypeDeclaration f ⟨some fields⟩ fullPackage markerField
        declaredName = true
    exact (isSomeObject_iff f ⟨some fields⟩ fullPackage markerField declaredName).mpr
      ⟨fields, rfl, halias, fd, hfd, h1, h2⟩

/-- C2, counterexample to the claim as stated: the struct `Money` of `c2File`
declares its fields through the single entry `x, _ vo.ValueObject`, so its
field list contains exactly one field named `_` whose declared type resolves
to the marker — yet no Type Declaration Record is produced, because the
detector only matches a field entry declaring exactly one name. -/
theorem C2_counterexample :
    processedEntry c2Tree "bank.go" c2File ∧
    VisitNode.typeSpec "Money" (some c2Struct) ∈ fileVisits c2File ∧
    specExactlyOneMarkerFieldResolving c2File c2Fields valueobject.FullPackage
      valueobject.MarkerField valueobject.DeclaredName ∧
    ((helpers.FindTypeDeclarations c2Tree (fun file st =>
      helpers.IsSomeObjectTypeDeclaration file st valueobject.FullPackage
        valueobject.MarkerField valueobject.DeclaredName)).1.getD []) = [] := by
  exact ⟨by decide, by decide, by decide, by decide⟩

/-- C2, witness: the amended characterization applied to the concrete tree
`exTree`, whose `money.Money` carries the marker through a single-name `_`
field entry. -/
theorem C2_witness :
    "money.Money" ∈ ((helpers.FindTypeDeclarations exTree (fun file st =>
        helpers.IsSomeObjectTypeDeclaration file st valueobject.FullPackage
          valueobject.MarkerField valueobject.DeclaredName)).1.getD []) :=
  (C2_record_iff_marker_field_entry exTree valueobject.FullPackage
      valueobject.MarkerField valueobject.DeclaredName "money.Money").mpr
    ⟨"money.go", exMoneyFile, "Money",
      [⟨["amount"], .otherType⟩, ⟨["_"], .selector (some "vo") "ValueObject"⟩],
      by decide, by decide, by decide,
      ⟨⟨["_"], .selector (some "vo") "ValueObject"⟩, by decide, by decide, by decide⟩,
      by decide⟩

/-- C3, code-bug evidence: on `c3Tree` the legacy bare-name scanner flags the
`Money{}` of package `other` — whose own `Money` bears no marker — because the
marked `money.Money` shares its bare name, while the package-qualified scanner
of the `helpers` package resolves the occurrence to `other.Money` and flags
nothing. -/
theorem C3_bare_name_confusion :
    ((legacy.FindTypeDeclarations c3Tree (fun file st =>
        helpers.IsSomeObjectTypeDeclaration file st valueobject.FullPackage
          valueobject.MarkerField valueobject.DeclaredName)).1.getD []) = ["Money"] ∧
    ((legacy.FindZeroValueInitializations c3Tree valueobject.DeclaredName ["Money"]
        ((legacy.FindConstructors c3Tree ["Money"]).1.getD [])).1.getD [])
      = [helpers.violationString valueobject.DeclaredName "Money" "other.go" 7] ∧
    ((helpers.FindTypeDeclarations c3Tree (fun file st =>
        helpers.IsSomeObjectTypeDeclaration file st valueobject.FullPackage
          valueobject.MarkerField valueobject.DeclaredName)).1.getD [])
      = ["money.Money"] ∧
    ((helpers.FindZeroValueInitializations c3Tree valueobject.DeclaredName ["money.Money"]
        ((helpers.FindConstructors c3Tree ["money.Money"]).1.getD [])).1.getD []) = [] := by
  exact ⟨by decide, by decide, by decide, by decide⟩

/-- C4, code-bug evidence: on a tree whose root enumeration fails, validation
returns the nil-report, nil-error pair — the designated "no marked types"
signal — instead of a wrapped error: the walk callback returns nil on the root
error, so `filepath.Walk` returns nil and the `ge.Pin` wrapping branch never
runs, even though the tree behind the unreadable root contains a marked type
and a violating construction. -/
theorem C4_root_error_swallowed :
    valueobject.ValidateValueObjects c4Tree = (none, none) ∧
    (helpers.FindTypeDeclarations c4Tree valueobject.IsValueObjectTypeDeclaration).2 = none ∧
    c4Tree.rootError.isSome = true := by
  exact ⟨rfl, rfl, rfl⟩

/-- C5, counterexample to the claim as stated: `NewMoney` in package `shop`
declares the qualified result type `money.Money`, which matches the marked
set under package-qualified comparison, yet `FindConstructors` records
nothing: only a bare-identifier result type is ever inspected. -/
theorem C5_counterexample :
    processedEntry c5Tree "shop.go" c5File ∧
    (VisitNode.funcDecl "NewMoney" (some [GoTypeExpr.selector (some "money") "Money"]) 5 8)
      ∈ fileVisits c5File ∧
    goStartsWith "NewMoney" "New" = true ∧
    specResultMatchesMarked c5File.pkgName ["money.Money"]
      (GoTypeExpr.selector (some "money") "Money") ∧
    ((helpers.FindConstructors c5Tree ["money.Money"]).1.getD []) = [] := by
  exact ⟨by decide, by decide, by decide, by decide, by decide⟩

/-- C5, amended: a Constructor Record with key `k` exists iff some processed
file contains a function declaration whose name starts with the constructor
prefix and whose first result type is a bare identifier naming — qualified
with the enclosing file's package — a member of the type set; the record's
span is the declaration's inclusive start and end lines, its key is the
composite `path:name:typeKey`, and the phase never returns an error.  A
qualified (selector) result type, or a prefix-named function with a
non-matching result, yields no record. -/
theorem C5_record_iff_ident_result (tree : GoTree) (types : List String) (k : String) :
    ((∃ v, (k, v) ∈ ((helpers.FindConstructors tree types).1.getD [])) ↔
      ∃ path fname tk s e, ConstructorDeclFor tree types path fname tk s e ∧
        k = helpers.constructorKey path fname tk) ∧
    (∀ v, (k, v) ∈ ((helpers.FindConstructors tree types).1.getD []) →
      ∃ path fname tk,
        ConstructorDeclFor tree types path fname tk v.StartLine v.EndLine ∧
        k = helpers.constructorKey path fname tk ∧ v.File = path) ∧
    (helpers.FindConstructors tree types).2 = none := by
  refine ⟨⟨?_, ?_⟩, ?_, ?_⟩
  · rintro ⟨v, hv⟩
    obtain ⟨path, f, hproc, w, hw, hhit⟩ := constructors_origin tree types k v hv
    obtain ⟨fname, n, rest, s, e, rfl, hnew, hmem, hk, hv'⟩ := constructorHit_shape hhit
    exact ⟨path, fname, f.pkgName ++ "." ++ n, s, e,
      ⟨f, rest, n, hproc, hw, hnew, rfl, hmem⟩, hk⟩
  · rintro ⟨path, fname, tk, s, e, ⟨f, rest, n, hproc, hw, hnew, htk, hmem⟩, hk⟩
    subst htk
    refine constructors_key_mem tree types k
      { File := path, StartLine := s, EndLine := e } ⟨path, f, hproc, _, hw, ?_⟩
    rw [hk]
    exact constructorHit_of_decl types f.pkgName path fname n rest s e hnew hmem
  · intro v hv
    obtain ⟨path, f, hproc, w, hw, hhit⟩ := constructors_origin tree types k v hv
    obtain ⟨fname, n, rest, s, e, rfl, hnew, hmem, hk, hv'⟩ := constructorHit_shape hhit
    subst hv'
    exact ⟨path, fname, f.pkgName ++ "." ++ n,
      ⟨f, rest, n, hproc, hw, hnew, rfl, hmem⟩, hk, rfl⟩
  · rw [FindConstructors_eq]

/-- C5, witness: the amended characterization instantiated on `exTree`, whose
`NewMoney` returns the bare identifier `Money` and is recorded. -/
theorem C5_witness :
    ∃ v, (helpers.constructorKey "money.go" "NewMoney" "money.Money", v)
      ∈ ((helpers.FindConstructors exTree exTypes).1.getD []) :=
  (C5_record_iff_ident_result exTree exTypes
      (helpers.constructorKey "money.go" "NewMoney" "money.Money")).1.mpr
    ⟨"money.go", "NewMoney", "money.Money", 10, 13,
      ⟨exMoneyFile, [], "Money", by decide, by decide, by decide, by decide, by decide⟩,
      rfl⟩

/-- C1: for a zero-value occurrence of a marked type `t` at `(path, line)`,
the scanner emits the Violation Record iff no Constructor Record for that
type (the type component of its composite key equals `t`) has the same file
and an inclusive span containing the line; in particular, when every record
for `t` lies in a different file, the violation is emitted — a constructor
recorded in another file never exempts the occurrence — and every emitted
message reaches the deduplicated violation set of
`FindZeroValueInitializations`. -/
theorem C1_violation_iff_no_samefile_covering_record
    (tree : GoTree) (types : List String) (m path t : String) (f : GoFile)
    (v : VisitNode) (ty : GoTypeExpr) (elts : GoExprList) (line : Nat)
    (cs : List (String × ConstructorInfo))
    (hcs : cs = (helpers.FindConstructors tree types).1.getD [])
    (hwf : constructorIdentsColonFree tree = true)
    (ht : colonFree t = true)
    (hproc : processedEntry tree path f)
    (hv : v ∈ fileVisits f)
    (hcand : helpers.visitCompLit v = some (ty, elts, line))
    (hempty : elts.length = 0)
    (hres : helpers.resolveTypeKey f.pkgName f.imports ty = some t)
    (hmark : t ∈ types) :
    (helpers.scanHit f.pkgName f.imports m types cs path v
        = some (helpers.violationString m t path line) ↔
      ¬∃ kc ∈ cs, keyTypeComponent kc.1 = t ∧ kc.2.File = path ∧
        kc.2.StartLine ≤ line ∧ line ≤ kc.2.EndLine) ∧
    ((∀ kc ∈ cs, keyTypeComponent kc.1 = t → kc.2.File ≠ path) →
      helpers.scanHit f.pkgName f.imports m types cs path v
        = some (helpers.violationString m t path line)) ∧
    (∀ s, helpers.scanHit f.pkgName f.imports m types cs path v = some s →
      s ∈ ((helpers.FindZeroValueInitializations tree m types cs).1.getD [])) := by
  have hkeys : ∀ kc ∈ cs, ∃ p fn t', kc.1 = helpers.constructorKey p fn t' ∧
      colonFree fn = true ∧ colonFree t' = true ∧ kc.2.File = p := by
    rw [hcs]
    exact keys_wellformed hwf
  have hrec := isInside_iff_record path line hkeys ht
  rw [scanHit_eq_decision m path cs hcand hempty hres hmark]
  by_cases hin : helpers.IsInsideConstructor path line t cs = true
  · rw [if_pos hin]
    have hex := hrec.mp hin
    refine ⟨⟨fun h => absurd h (by simp), fun hno => absurd hex hno⟩, ?_, ?_⟩
    · intro hlocal
      obtain ⟨kc, hmem, hcomp, hfile, -, -⟩ := hex
      exact absurd hfile (hlocal kc hmem hcomp)
    · intro s h
      exact absurd h (by simp)
  · rw [if_neg hin]
    have hnex : ¬∃ kc ∈ cs, keyTypeComponent kc.1 = t ∧ kc.2.File = path ∧
        kc.2.StartLine ≤ line ∧ line ≤ kc.2.EndLine :=
      fun hex => hin (hrec.mpr hex)
    refine ⟨iff_of_true rfl hnex, fun _ => rfl, ?_⟩
    intro s h
    injection h with hs
    refine (scan_mem_iff tree m types cs s).mpr ⟨path, f, hproc, v, hv, ?_⟩
    rw [scanHit_eq_decision m path cs hcand hempty hres hmark, if_neg hin, hs]

/-- C1, witness: the theorem applied to the `Money{}` occurrence at line 20 of
`exTree`, which lies outside the recorded `NewMoney` span 10-13. -/
theorem C1_witness :
    helpers.violationString "ValueObject" "money.Money" "money.go" 20 ∈
      ((helpers.FindZeroValueInitializations exTree "ValueObject" exTypes
        exConstructors).1.getD []) := by
  have h := C1_violation_iff_no_samefile_covering_record exTree exTypes "ValueObject"
    "money.go" "money.Money" exMoneyFile
    (VisitNode.comp (GoTypeExpr.ident "Money") GoExprList.nil 20)
    (GoTypeExpr.ident "Money") GoExprList.nil 20 exConstructors
    rfl (by decide) (by decide) (by decide) (by decide) rfl rfl (by decide) (by decide)
  exact h.2.2 _ (h.1.mpr (by decide))

/-- C6: two constructor declarations producing the same type, in different
files or with different names, yield distinct composite keys
`file:name:type`, and both records are present in the constructors map with
their own files — neither write overwrites the other. -/
theorem C6_composite_keys_accumulate (tree : GoTree) (types : List String)
    (path1 fname1 path2 fname2 tk : String) (s1 e1 s2 e2 : Nat)
    (h1 : ConstructorDeclFor tree types path1 fname1 tk s1 e1)
    (h2 : ConstructorDeclFor tree types path2 fname2 tk s2 e2)
    (hne : (path1, fname1) ≠ (path2, fname2))
    (hwf : constructorIdentsColonFree tree = true)
    (hf1 : colonFree fname1 = true) (hf2 : colonFree fname2 = true)
    (htk : colonFree tk = true) :
    helpers.constructorKey path1 fname1 tk ≠ helpers.constructorKey path2 fname2 tk ∧
    (∃ v1, (helpers.constructorKey path1 fname1 tk, v1)
      ∈ ((helpers.FindConstructors tree types).1.getD []) ∧ v1.File = path1) ∧
    (∃ v2, (helpers.constructorKey path2 fname2 tk, v2)
      ∈ ((helpers.FindConstructors tree types).1.getD []) ∧ v2.File = path2) := by
  have hkey : ∀ path fname s e, ConstructorDeclFor tree types path fname tk s e →
      colonFree fname = true →
      ∃ v, (helpers.constructorKey path fname tk, v)
        ∈ ((helpers.FindConstructors tree types).1.getD []) ∧ v.File = path := by
    rintro path fname s e ⟨f, rest, n, hproc, hw, hnew, htkeq, hmem⟩ hfn
    have hhit := constructorHit_of_decl types f.pkgName path fname n rest s e hnew
      (htkeq ▸ hmem)
    rw [← htkeq] at hhit
    obtain ⟨v, hv⟩ := constructors_key_mem tree types
      (helpers.constructorKey path fname tk)
      { File := path, StartLine := s, EndLine := e } ⟨path, f, hproc, _, hw, hhit⟩
    obtain ⟨p', fn', t', hkeq, hcf', hct', hfile⟩ := keys_wellformed hwf _ hv
    obtain ⟨hp, -, -⟩ := constructorKey_inj hfn htk hcf' hct' hkeq
    refine ⟨v, hv, ?_⟩
    rw [hfile]
    exact hp.symm
  obtain ⟨v1, hv1, hfile1⟩ := hkey path1 fname1 s1 e1 h1 hf1
  obtain ⟨v2, hv2, hfile2⟩ := hkey path2 fname2 s2 e2 h2 hf2
  refine ⟨?_, ⟨v1, hv1, hfile1⟩, ⟨v2, hv2, hfile2⟩⟩
  intro heq
  obtain ⟨hp, hf, -⟩ := constructorKey_inj hf1 htk hf2 htk heq
  exact hne (by rw [hp, hf])

/-- C6, witness: `NewMoney` for `money.Money` declared in two files of
`c6Tree` yields two distinct records with their respective files. -/
theorem C6_witness :
    helpers.constructorKey "money1.go" "NewMoney" "money.Money"
      ≠ helpers.constructorKey "money2.go" "NewMoney" "money.Money" ∧
    (∃ v1, (helpers.constructorKey "money1.go" "NewMoney" "money.Money", v1)
      ∈ ((helpers.FindConstructors c6Tree ["money.Money"]).1.getD []) ∧
      v1.File = "money1.go") ∧
    (∃ v2, (helpers.constructorKey "money2.go" "NewMoney" "money.Money", v2)
      ∈ ((helpers.FindConstructors c6Tree ["money.Money"]).1.getD []) ∧
      v2.File = "money2.go") :=
  C6_composite_keys_accumulate c6Tree ["money.Money"] "money1.go" "NewMoney"
    "money2.go" "NewMoney" "money.Money" 3 6 4 9
    ⟨c6File1, [], "Money", by decide, by decide, by decide, by decide, by decide⟩
    ⟨c6File2, [], "Money", by decide, by decide, by decide, by decide, by decide⟩
    (by decide) (by decide) (by decide) (by decide) (by decide)

/-- C7: every violation message in the scanner's output arises from a
composite literal whose initializer list is syntactically empty — a
construction with any explicit field initializer is never flagged, whatever
its value. -/
theorem C7_only_empty_literals_flagged (tree : GoTree) (m : String)
    (types : List String) (cs : List (String × ConstructorInfo)) (s : String)
    (h : s ∈ ((helpers.FindZeroValueInitializations tree m types cs).1.getD [])) :
    ∃ path f v ty elts line t, processedEntry tree path f ∧ v ∈ fileVisits f ∧
      helpers.visitCompLit v = some (ty, elts, line) ∧ elts.length = 0 ∧
      helpers.resolveTypeKey f.pkgName f.imports ty = some t ∧ t ∈ types ∧
      helpers.IsInsideConstructor path line t cs = false ∧
      s = helpers.violationString m t path line := by
  obtain ⟨path, f, hproc, v, hv, hhit⟩ := (scan_mem_iff tree m types cs s).mp h
  obtain ⟨ty, elts, line, t, hcand, hlen, hres, hmem, hin, hs⟩ := scanHit_some_inv hhit
  exact ⟨path, f, v, ty, elts, line, t, hproc, hv, hcand, hlen, hres, hmem, hin, hs⟩

/-- C7, witness: the violation of `exTree` at line 20 traces back to a
syntactically empty literal. -/
theorem C7_witness :
    ∃ path f v ty elts line t, processedEntry exTree path f ∧ v ∈ fileVisits f ∧
      helpers.visitCompLit v = some (ty, elts, line) ∧ elts.length = 0 ∧
      helpers.resolveTypeKey f.pkgName f.imports ty = some t ∧ t ∈ exTypes ∧
      helpers.IsInsideConstructor path line t exConstructors = false ∧
      helpers.violationString "ValueObject" "money.Money" "money.go" 20
        = helpers.violationString "ValueObject" t path line :=
  C7_only_empty_literals_flagged exTree "ValueObject" exTypes exConstructors
    (helpers.violationString "ValueObject" "money.Money" "money.go" 20) (by decide)

/-- C8: for every marker-kind predicate and marker name, when the detector
finds no marked types the wrapper returns the nil report with a nil error —
the designated "no marked types" signal — and for every tree it never returns
both a non-nil report and a non-nil error. -/
theorem C8_nil_report_signal (pred : GoFile → GoStructType → Bool) (dn : String)
    (tree : GoTree) :
    (((helpers.FindTypeDeclarations tree pred).1.getD []) = [] →
      ValidateSomeObjects pred dn tree = (none, none)) ∧
    ¬(((ValidateSomeObjects pred dn tree).1.isSome = true) ∧
      ((ValidateSomeObjects pred dn tree).2.isSome = true)) := by
  rw [ValidateSomeObjects_eq]
  constructor
  · intro hemp
    rw [if_pos (by simp [hemp])]
  · split
    · rintro ⟨-, h2⟩
      simp at h2
    · rintro ⟨-, h2⟩
      simp at h2

/-- C8, witness: the empty tree yields the nil-report, nil-error signal for
the value-object marker kind. -/
theorem C8_witness :
    ValidateSomeObjects valueobject.IsValueObjectTypeDeclaration
      valueobject.DeclaredName c8Tree = (none, none) :=
  (C8_nil_report_signal valueobject.IsValueObjectTypeDeclaration
    valueobject.DeclaredName c8Tree).1 (by decide)

/-- C9: all three phases skip a `_test.go` entry entirely: inserting such an
entry anywhere in a tree leaves the output of every phase unchanged, whatever
the file contains and whether or not any constructor is recorded. -/
theorem C9_test_files_skipped (re : Option String) (l1 l2 : List WalkCall)
    (path : String) (parsed : Option GoFile) (pred : GoFile → GoStructType → Bool)
    (m : String) (types : List String) (cs : List (String × ConstructorInfo))
    (h : goEndsWith path "_test.go" = true) :
    helpers.FindTypeDeclarations ⟨re, l1 ++ WalkCall.entry path parsed :: l2⟩ pred
        = helpers.FindTypeDeclarations ⟨re, l1 ++ l2⟩ pred ∧
    helpers.FindConstructors ⟨re, l1 ++ WalkCall.entry path parsed :: l2⟩ types
        = helpers.FindConstructors ⟨re, l1 ++ l2⟩ types ∧
    helpers.FindZeroValueInitializations ⟨re, l1 ++ WalkCall.entry path parsed :: l2⟩
        m types cs
      = helpers.FindZeroValueInitializations ⟨re, l1 ++ l2⟩ m types cs := by
  cases re with
  | some msg => exact ⟨rfl, rfl, rfl⟩
  | none =>
    refine ⟨?_, ?_, ?_⟩
    · rw [FindTypeDeclarations_eq, FindTypeDeclarations_eq]
      have hcalls1 : walkCalls ⟨none, l1 ++ WalkCall.entry path parsed :: l2⟩
          = l1 ++ WalkCall.entry path parsed :: l2 := rfl
      have hcalls2 : walkCalls ⟨none, l1 ++ l2⟩ = l1 ++ l2 := rfl
      rw [hcalls1, hcalls2,
        foldl_skip_middle (fun a c => (helpers.typeDeclWalkStep pred a c).1)
          (WalkCall.entry path parsed)
          (fun a => by
            show (helpers.typeDeclWalkStep pred a (WalkCall.entry path parsed)).1 = a
            rw [typeDeclWalkStep_test_skip pred a path parsed h]) l1 l2 []]
    · rw [FindConstructors_eq, FindConstructors_eq]
      have hcalls1 : walkCalls ⟨none, l1 ++ WalkCall.entry path parsed :: l2⟩
          = l1 ++ WalkCall.entry path parsed :: l2 := rfl
      have hcalls2 : walkCalls ⟨none, l1 ++ l2⟩ = l1 ++ l2 := rfl
      rw [hcalls1, hcalls2,
        foldl_skip_middle (fun a c => (helpers.constructorWalkStep types a c).1)
          (WalkCall.entry path parsed)
          (fun a => by
            show (helpers.constructorWalkStep types a (WalkCall.entry path parsed)).1 = a
            rw [constructorWalkStep_test_skip types a path parsed h]) l1 l2 []]
    · rw [FindZeroValueInitializations_eq, FindZeroValueInitializations_eq]
      have hcalls1 : walkCalls ⟨none, l1 ++ WalkCall.entry path parsed :: l2⟩
          = l1 ++ WalkCall.entry path parsed :: l2 := rfl
      have hcalls2 : walkCalls ⟨none, l1 ++ l2⟩ = l1 ++ l2 := rfl
      rw [hcalls1, hcalls2,
        foldl_skip_middle (fun a c => (helpers.scanWalkStep m types cs a c).1)
          (WalkCall.entry path parsed)
          (fun a => by
            show (helpers.scanWalkStep m types cs a (WalkCall.entry path parsed)).1 = a
            rw [scanWalkStep_test_skip m types cs a path parsed h]) l1 l2 []]

/-- C9, witness: a `money_test.go` file holding a marked zero-value
construction contributes nothing to the scanner, with no constructors
recorded at all. -/
theorem C9_witness :
    helpers.FindZeroValueInitializations
        ⟨none, [WalkCall.entry "money_test.go" (some c9TestFile)]⟩
        "ValueObject" exTypes []
      = helpers.FindZeroValueInitializations ⟨none, []⟩ "ValueObject" exTypes [] :=
  (C9_test_files_skipped none [] [] "money_test.go" (some c9TestFile)
    valueobject.IsValueObjectTypeDeclaration "ValueObject" exTypes [] (by decide)).2.2

/-- C10: the scanner examines every syntactically empty composite literal of a
marked type wherever it occurs in a file — nested inside call arguments,
variable-declaration initializers or any other expression — because the
traversal matches the composite-literal node itself; each such occurrence
outside a recorded constructor span puts its Violation Record into the result
set, and that set never holds duplicates, so an occurrence reachable both
through its enclosing statement and directly still yields a single collapsed
record. -/
theorem C10_nested_literals_and_dedup (tree : GoTree) (m : String)
    (types : List String) (cs : List (String × ConstructorInfo)) :
    (∀ path f ty elts line t,
      processedEntry tree path f →
      LitInFile (GoExpr.compositeLit ty elts line) f →
      elts.length = 0 →
      helpers.resolveTypeKey f.pkgName f.imports ty = some t →
      t ∈ types →
      helpers.IsInsideConstructor path line t cs = false →
      helpers.violationString m t path line ∈
        ((helpers.FindZeroValueInitializations tree m types cs).1.getD [])) ∧
    ((helpers.FindZeroValueInitializations tree m types cs).1.getD []).Nodup := by
  refine ⟨?_, scan_nodup tree m types cs⟩
  intro path f ty elts line t hproc hlit hlen hres hmem hin
  have hvis : VisitNode.comp ty elts line ∈ fileVisits f := by
    have h0 : VisitNode.comp ty elts line
        ∈ exprVisits (GoExpr.compositeLit ty elts line) := by
      simp [exprVisits]
    exact litInFile_visits hlit _ h0
  refine (scan_mem_iff tree m types cs _).mpr ⟨path, f, hproc, _, hvis, ?_⟩
  have hcand : helpers.visitCompLit (VisitNode.comp ty elts line)
      = some (ty, elts, line) := rfl
  rw [scanHit_eq_decision m path cs hcand hlen hres hmem]
  rw [if_neg (by simp [hin])]

/-- C10, witness: the `Money{}` nested as a call argument at line 30 of
`exTree` is flagged, and the violation set of `exTree` holds no
duplicates. -/
theorem C10_witness :
    helpers.violationString "ValueObject" "money.Money" "money.go" 30 ∈
      ((helpers.FindZeroValueInitializations exTree "ValueObject" exTypes
        exConstructors).1.getD []) :=
  (C10_nested_literals_and_dedup exTree "ValueObject" exTypes exConstructors).1
    "money.go" exMoneyFile (GoTypeExpr.ident "Money") GoExprList.nil 30 "money.Money"
    (by decide)
    ⟨GoDecl.varDecl (.cons (.otherExpr (.cons (exMoneyLit 30) .nil)) .nil), by decide,
      LitInDecl.inVar (MemE.head _ _)
        (LitInExpr.inChildren (MemE.head _ _) (LitInExpr.self _))⟩
    rfl (by decide) (by decide) (by decide)

end DDDGo
